import Mathlib

/-!
Verification development for the groq-language-server repository.

This file gives a shallow embedding of the schema loader, validation cache,
extension registry, function registry, and type-context resolver of the
repository, and proves (or refutes) the frozen specification claims about
them.  Definitions are translated from the TypeScript source; where the
source is known to be missing from the tree (only imported), a definition
is modelled from the specification and marked as such in its doc comment.

Modelling conventions:
- machine maps (JS `Map`) are insertion-ordered association lists whose
  `set` replaces an existing binding in place and appends new ones;
- the filesystem and the validation-cache directory are association lists
  from paths to file states; `path.resolve` is modelled as the identity;
- the sha256 digest is modelled by an injective encoding of its input
  (digest equality stands for content equality);
- JS exceptions inside the loader's catch-all `try` are not reachable in
  the embedded fragment, so every embedded function is total.
-/

namespace GroqLS

/-- JSON values as produced by `JSON.parse`. -/
inductive Json where
  | null : Json
  | bool (b : Bool) : Json
  | num (n : Int) : Json
  | str (s : String) : Json
  | arr (xs : List Json) : Json
  | obj (kvs : List (String × Json)) : Json

/-- Object key lookup (`raw.key`); returns `none` for absence or non-objects. -/
def Json.getKey : Json → String → Option Json
  | .obj kvs, k => (kvs.find? (fun kv => kv.1 = k)).map (·.2)
  | _, _ => none

/-- The JS `'k' in v` test, for values reachable from `JSON.parse`. -/
def Json.hasKey : Json → String → Bool
  | .obj kvs, k => kvs.any (fun kv => kv.1 = k)
  | _, _ => false

/-- `Array.isArray`. -/
def Json.isArr : Json → Bool
  | .arr _ => true
  | _ => false

/-- The JS test `typeof v === 'object'` (true for objects, arrays and null). -/
def Json.jsTypeofObject : Json → Bool
  | .obj _ => true
  | .arr _ => true
  | .null => true
  | _ => false

/-- JS truthiness of a possibly-absent value. -/
def jsTruthy : Option Json → Bool
  | none => false
  | some .null => false
  | some (.bool b) => b
  | some (.num n) => !(n = 0)
  | some (.str s) => !(s = "")
  | some (.arr _) => true
  | some (.obj _) => true

/-- `Object.values` (insertion order), for objects; empty otherwise. -/
def Json.valuesOf : Json → List Json
  | .obj kvs => kvs.map (·.2)
  | _ => []

/-- Insertion-ordered association list with JS `Map.set` semantics:
an existing key is updated in place, a new key is appended. -/
def mapSet {α : Type} (m : List (String × α)) (k : String) (v : α) : List (String × α) :=
  match m with
  | [] => [(k, v)]
  | (k', v') :: rest =>
      if k' = k then (k, v) :: rest else (k', v') :: mapSet rest k v

/-- JS `Map.get`. -/
def mapGet {α : Type} (m : List (String × α)) (k : String) : Option α :=
  (m.find? (fun kv => kv.1 = k)).map (·.2)

/-- JS `Set.add` order-preserving, duplicate-free insertion. -/
def setAdd (s : List String) (x : String) : List String :=
  if s.contains x then s else s ++ [x]

/-- Decidable list-prefix test (first list is a prefix of the second). -/
def listLeads : List Char → List Char → Bool
  | [], _ => true
  | _ :: _, [] => false
  | a :: as, b :: bs => a = b && listLeads as bs

/-- Substring test used to state "the error message contains …". -/
def containsStr (hay needle : String) : Bool :=
  let h := hay.toList
  let n := needle.toList
  (List.range (h.length + 1)).any (fun i => listLeads n (h.drop i))

/-- `Json.isNull`. -/
def Json.isNull : Json → Bool
  | .null => true
  | _ => false

/-- `Object.entries` for objects and arrays (index keys); empty otherwise. -/
def Json.entriesOf : Json → List (String × Json)
  | .obj kvs => kvs
  | .arr xs => (xs.enum).map (fun p => (toString p.1, p.2))
  | _ => []

/-- JS property access that is a string, collapsed to `""` when the property
is absent or not a string (such accesses are unreachable for inputs that
passed validation, which is the only way the claims exercise them). -/
def jsStr (v : Option Json) : String :=
  match v with
  | some (.str s) => s
  | _ => ""

/-- Optional string property (`description?` and the like). -/
def jsOptStr (v : Option Json) : Option String :=
  match v with
  | some (.str s) => some s
  | _ => none

/-! ## Schema data model (`SchemaTypes.ts`) -/

/-- `SchemaReference`. -/
structure SchemaReference where
  type : String
deriving Repr, DecidableEq

/-- `SchemaFieldOf`. -/
structure SchemaFieldOf where
  type : String
  name : Option String
deriving Repr, DecidableEq

/-- `SchemaField`; `toTargets` models the source field `to` (`to` is a
reserved token in this Lean environment). -/
structure SchemaField where
  name : String
  type : String
  description : Option String
  of : Option (List SchemaFieldOf)
  toTargets : Option (List SchemaReference)
deriving Repr, DecidableEq

/-- `SchemaType`. -/
structure SchemaType where
  name : String
  type : String
  description : Option String
  fields : Option (List SchemaField)
deriving Repr, DecidableEq

/-- `SanitySchema`. -/
structure SanitySchema where
  types : List SchemaType
deriving Repr, DecidableEq

/-- `isDocumentType`. -/
def isDocumentType (schemaType : SchemaType) : Bool :=
  schemaType.type = "document"

/-- `isReferenceField`. -/
def isReferenceField (field : SchemaField) : Bool :=
  field.type = "reference"

/-- `isArrayField`. -/
def isArrayField (field : SchemaField) : Bool :=
  field.type = "array"

/-- `getReferenceTargets`. -/
def getReferenceTargets (field : SchemaField) : List String :=
  match field.toTargets with
  | none => []
  | some refs => refs.map (·.type)

/-- `getArrayItemTypes`. -/
def getArrayItemTypes (field : SchemaField) : List String :=
  match field.of with
  | none => []
  | some of => of.map (·.type)

/-- `ResolvedField`. -/
structure ResolvedField where
  name : String
  type : String
  isReference : Bool
  referenceTargets : Option (List String)
  isArray : Bool
  arrayOf : Option (List String)
  description : Option String
deriving Repr, DecidableEq

/-- `ResolvedType`; the field map is an insertion-ordered association list. -/
structure ResolvedType where
  name : String
  fields : List (String × ResolvedField)
  isDocument : Bool
deriving Repr, DecidableEq

/-! ## Schema loader (`SchemaLoader.ts`, the version with validation and
caching, which is the one the claims cite) -/

/-- `Required<SchemaValidationConfig>` (the loader stores the merged,
fully-populated configuration). -/
structure SchemaValidationConfig where
  enabled : Bool
  maxDepth : Nat
  maxTypes : Nat
  maxFieldsPerType : Nat
  cacheValidation : Bool
deriving Repr, DecidableEq

/-- `DEFAULT_VALIDATION_CONFIG`. -/
def DEFAULT_VALIDATION_CONFIG : SchemaValidationConfig :=
  { enabled := true, maxDepth := 50, maxTypes := 10000,
    maxFieldsPerType := 1000, cacheValidation := true }

/-- `CACHE_VERSION`. -/
def CACHE_VERSION : Nat := 1

/-- `SchemaValidationResult`. -/
structure SchemaValidationResult where
  valid : Bool
  error : Option String
deriving Repr, DecidableEq

/-- `ValidationCacheEntry`. -/
structure ValidationCacheEntry where
  version : Nat
  schemaHash : String
  configHash : String
  valid : Bool
  error : Option String
deriving Repr, DecidableEq

/-- The depth-failure message (note: it carries only the configured limit,
not the offending depth). -/
def depthMsg (maxDepth : Nat) : String :=
  "Schema exceeds maximum nesting depth of " ++ toString maxDepth

/-- The type-count-failure message. -/
def typeCountMsg (n maxTypes : Nat) : String :=
  "Schema contains " ++ toString n ++ " types, exceeding maximum of " ++ toString maxTypes

/-- The field-count-failure message. -/
def fieldCountMsg (typeName : String) (n maxFields : Nat) : String :=
  "Type \"" ++ typeName ++ "\" has " ++ toString n ++
    " fields, exceeding maximum of " ++ toString maxFields

mutual

/-- `checkDepth`: recursively walk the raw value, failing as soon as the
current depth exceeds the configured maximum. -/
def checkDepth (maxDepth : Nat) : Json → Nat → SchemaValidationResult
  | v, currentDepth =>
    if currentDepth > maxDepth then
      { valid := false, error := some (depthMsg maxDepth) }
    else
      match v with
      | .arr xs => checkDepthItems maxDepth xs (currentDepth + 1)
      | .obj kvs => checkDepthProps maxDepth kvs (currentDepth + 1)
      | _ => { valid := true, error := none }

/-- the `for (const item of value)` loop of `checkDepth` over an array. -/
def checkDepthItems (maxDepth : Nat) : List Json → Nat → SchemaValidationResult
  | [], _ => { valid := true, error := none }
  | x :: xs, d =>
    let r := checkDepth maxDepth x d
    if r.valid then checkDepthItems maxDepth xs d else r

/-- the `for (const key of Object.keys(value))` loop of `checkDepth`. -/
def checkDepthProps (maxDepth : Nat) : List (String × Json) → Nat → SchemaValidationResult
  | [], _ => { valid := true, error := none }
  | kv :: xs, d =>
    let r := checkDepth maxDepth kv.2 d
    if r.valid then checkDepthProps maxDepth xs d else r

end

/-- `isGroqTypeSchema`: shape (b) detection, checked before shape (a). -/
def isGroqTypeSchema (raw : Json) : Bool :=
  match raw with
  | .arr (first :: _) =>
      (first.jsTypeofObject && !first.isNull) &&
      first.hasKey "name" &&
      (first.hasKey "attributes" ||
        (first.hasKey "value" &&
          (match first.getKey "value" with
           | some v => v.jsTypeofObject
           | none => false)))
  | _ =>
    if raw.jsTypeofObject && !raw.isNull && !raw.hasKey "types" then
      match raw.valuesOf with
      | first :: _ => (first.jsTypeofObject && !first.isNull) && first.hasKey "name"
      | [] => false
    else false

/-- `isSanitySchema`: shape (a) detection. -/
def isSanitySchema (raw : Json) : Bool :=
  raw.jsTypeofObject && !raw.isNull && raw.hasKey "types" &&
    (match raw.getKey "types" with
     | some (.arr _) => true
     | _ => false)

/-- `schemaType.attributes || schemaType.value?.attributes`. -/
def groqAttributesOf (schemaType : Json) : Option Json :=
  if jsTruthy (schemaType.getKey "attributes") then schemaType.getKey "attributes"
  else (schemaType.getKey "value").bind (fun v => v.getKey "attributes")

/-- the per-type loop of `validateGroqTypeSchemaStructure`. -/
def validateGroqTypesLoop (cfg : SchemaValidationConfig) : List Json → SchemaValidationResult
  | [] => { valid := true, error := none }
  | t :: rest =>
    match t.getKey "name" with
    | some (.str name) =>
      if name.length = 0 then
        { valid := false, error := some "Schema type missing required \"name\" field" }
      else
        match t.getKey "type" with
        | some (.str _) =>
          let attrs := groqAttributesOf t
          if jsTruthy attrs then
            let fieldCount := ((attrs.getD Json.null).entriesOf).length
            let maxF := cfg.maxFieldsPerType
            if fieldCount > maxF then
              { valid := false, error := some (fieldCountMsg name fieldCount maxF) }
            else validateGroqTypesLoop cfg rest
          else validateGroqTypesLoop cfg rest
        | _ =>
          { valid := false,
            error := some s!"Schema type \"{name}\" missing required \"type\" field" }
    | _ => { valid := false, error := some "Schema type missing required \"name\" field" }

/-- `Array.isArray(raw) ? raw : Object.values(raw)`. -/
def groqTypesOf (raw : Json) : List Json :=
  match raw with
  | .arr xs => xs
  | _ => raw.valuesOf

/-- `validateGroqTypeSchemaStructure`. -/
def validateGroqTypeSchemaStructure (cfg : SchemaValidationConfig) (raw : Json) : SchemaValidationResult :=
  let types := groqTypesOf raw
  let n := types.length
  let maxT := cfg.maxTypes
  if n > maxT then
    { valid := false, error := some (typeCountMsg n maxT) }
  else validateGroqTypesLoop cfg types

/-- the inner `for (const field of schemaType.fields)` loop of
`validateSanitySchemaStructure`; returns the first error, if any. -/
def validateSanityFieldsLoop (typeName : String) : List Json → Option String
  | [] => none
  | f :: rest =>
    match f.getKey "name" with
    | some (.str fname) =>
      if fname.length = 0 then
        some s!"Field in type \"{typeName}\" missing required \"name\""
      else
        match f.getKey "type" with
        | some (.str _) => validateSanityFieldsLoop typeName rest
        | _ => some s!"Field \"{fname}\" in type \"{typeName}\" missing required \"type\""
    | _ => some s!"Field in type \"{typeName}\" missing required \"name\""

/-- the per-type loop of `validateSanitySchemaStructure`. -/
def validateSanityTypesLoop (cfg : SchemaValidationConfig) : List Json → SchemaValidationResult
  | [] => { valid := true, error := none }
  | t :: rest =>
    match t.getKey "name" with
    | some (.str name) =>
      if name.length = 0 then
        { valid := false, error := some "Schema type missing required \"name\" field" }
      else
        match t.getKey "type" with
        | some (.str _) =>
          if jsTruthy (t.getKey "fields") then
            match t.getKey "fields" with
            | some (.arr fs) =>
              let fieldCount := fs.length
              let maxF := cfg.maxFieldsPerType
              if fieldCount > maxF then
                { valid := false, error := some (fieldCountMsg name fieldCount maxF) }
              else
                match validateSanityFieldsLoop name fs with
                | some e => { valid := false, error := some e }
                | none => validateSanityTypesLoop cfg rest
            | _ =>
              { valid := false,
                error := some s!"Type \"{name}\" has invalid \"fields\" (must be an array)" }
          else validateSanityTypesLoop cfg rest
        | _ =>
          { valid := false,
            error := some s!"Schema type \"{name}\" missing required \"type\" field" }
    | _ => { valid := false, error := some "Schema type missing required \"name\" field" }

/-- `validateSanitySchemaStructure` (operating on the raw parsed value the
source casts to `SanitySchema`). -/
def validateSanitySchemaStructure (cfg : SchemaValidationConfig) (raw : Json) : SchemaValidationResult :=
  match raw.getKey "types" with
  | some (.arr ts) =>
    let n := ts.length
    let maxT := cfg.maxTypes
    if n > maxT then
      { valid := false, error := some (typeCountMsg n maxT) }
    else validateSanityTypesLoop cfg ts
  | _ => { valid := false, error := some "Sanity schema \"types\" must be an array" }

/-- `validateStructure`. -/
def validateStructure (cfg : SchemaValidationConfig) (parsed : Json) : SchemaValidationResult :=
  if isGroqTypeSchema parsed then validateGroqTypeSchemaStructure cfg parsed
  else if isSanitySchema parsed then validateSanitySchemaStructure cfg parsed
  else
    { valid := false,
      error := some "Schema does not match expected Sanity or GROQ type schema format" }

/-- `validateSchema`. -/
def validateSchema (cfg : SchemaValidationConfig) (parsed : Json) : SchemaValidationResult :=
  let depthResult := checkDepth cfg.maxDepth parsed 0
  if !depthResult.valid then depthResult
  else
    let structureResult := validateStructure cfg parsed
    if !structureResult.valid then structureResult
    else { valid := true, error := none }

/-! ## Resolution -/

/-- A built-in field injected into document types by `resolveType`. -/
def builtinField (n t : String) : ResolvedField :=
  { name := n, type := t, isReference := false, referenceTargets := none,
    isArray := false, arrayOf := none, description := none }

/-- the declared-field loop of `resolveType`. -/
def resolveUserFields (schemaType : SchemaType) : List (String × ResolvedField) :=
  match schemaType.fields with
  | none => []
  | some fs =>
    fs.foldl (fun m field =>
      mapSet m field.name
        { name := field.name
          type := field.type
          isReference := isReferenceField field
          referenceTargets :=
            if isReferenceField field then some (getReferenceTargets field) else none
          isArray := isArrayField field
          arrayOf :=
            if isArrayField field then some (getArrayItemTypes field) else none
          description := field.description }) []

/-- `resolveType` (Sanity shape): resolve each declared field, then inject
the five built-in fields when the type is a document type. -/
def resolveType (schemaType : SchemaType) : ResolvedType :=
  let fields := resolveUserFields schemaType
  let fields :=
    if isDocumentType schemaType then
      mapSet (mapSet (mapSet (mapSet (mapSet fields
        "_id" (builtinField "_id" "string"))
        "_type" (builtinField "_type" "string"))
        "_createdAt" (builtinField "_createdAt" "datetime"))
        "_updatedAt" (builtinField "_updatedAt" "datetime"))
        "_rev" (builtinField "_rev" "string")
    else fields
  { name := schemaType.name, fields := fields, isDocument := isDocumentType schemaType }

/-- `resolveTypes`: rebuild the resolved-type map from `this.schema`. -/
def resolveTypes (schema : Option SanitySchema) : List (String × ResolvedType) :=
  match schema with
  | none => []
  | some s => s.types.foldl (fun m t => mapSet m t.name (resolveType t)) []

/-- `resolveGroqAttribute` (operating on the raw attribute value the source
casts to `GroqAttribute`). -/
def resolveGroqAttribute (name : String) (attr : Json) : ResolvedField :=
  let value := (attr.getKey "value").getD Json.null
  let vtype := jsStr (value.getKey "type")
  if vtype = "reference" && jsTruthy (value.getKey "to") then
    let targets :=
      match value.getKey "to" with
      | some (.arr xs) => xs.map (fun t => jsStr (t.getKey "type"))
      | _ => []
    { name := name, type := "reference", isReference := true,
      referenceTargets := some targets, isArray := false, arrayOf := none,
      description := none }
  else if vtype = "array" && jsTruthy (value.getKey "of") then
    let ofv := (value.getKey "of").getD Json.null
    let ofType := jsStr (ofv.getKey "type")
    let arrayOf :=
      if ofType = "inline" && jsTruthy (ofv.getKey "name") then
        [jsStr (ofv.getKey "name")]
      else if ofType = "object" then
        match ofv.getKey "rest" with
        | some rest =>
          if jsTruthy (rest.getKey "name") then [jsStr (rest.getKey "name")]
          else [ofType]
        | none => [ofType]
      else [ofType]
    { name := name, type := "array", isReference := false,
      referenceTargets := none, isArray := true, arrayOf := some arrayOf,
      description := none }
  else if vtype = "inline" && jsTruthy (value.getKey "name") then
    { name := name, type := jsStr (value.getKey "name"), isReference := false,
      referenceTargets := none, isArray := false, arrayOf := none,
      description := none }
  else
    { name := name, type := vtype, isReference := false,
      referenceTargets := none, isArray := false, arrayOf := none,
      description := none }

/-- `resolveGroqType`: resolve the `objectAttribute` entries of a raw
compiled-query-type entry.  Note: unlike `resolveType`, no built-in fields
are injected here. -/
def resolveGroqType (schemaType : Json) : Option ResolvedType :=
  let isDocument := jsStr (schemaType.getKey "type") = "document"
  let fields :=
    match groqAttributesOf schemaType with
    | none => []
    | some a =>
      (a.entriesOf).foldl (fun m kv =>
        if jsStr (kv.2.getKey "type") = "objectAttribute" then
          mapSet m kv.1 (resolveGroqAttribute kv.1 kv.2)
        else m) []
  some { name := jsStr (schemaType.getKey "name"), fields := fields,
         isDocument := isDocument }

/-- `resolveGroqTypeSchema`: resolve every entry of a compiled-query-type
schema into the resolved-type map. -/
def resolveGroqTypeSchema (raw : Json) : List (String × ResolvedType) :=
  let types := groqTypesOf raw
  types.foldl (fun m t =>
    match resolveGroqType t with
    | some resolved => mapSet m (jsStr (t.getKey "name")) resolved
    | none => m) []

/-- Models the unchecked TS cast `raw as SanitySchema` by an explicit decode.
Non-string `name`/`type` properties collapse to `""` and a truthy non-array
`fields`/`of`/`to` collapses to absence; both are unreachable for inputs
that passed validation, which is how every claim exercises this path. -/
def decodeSchemaField (j : Json) : SchemaField :=
  { name := jsStr (j.getKey "name")
    type := jsStr (j.getKey "type")
    description := jsOptStr (j.getKey "description")
    of :=
      match j.getKey "of" with
      | some (.arr xs) => some (xs.map (fun o =>
          { type := jsStr (o.getKey "type"), name := jsOptStr (o.getKey "name") }))
      | _ => none
    toTargets :=
      match j.getKey "to" with
      | some (.arr xs) => some (xs.map (fun r => { type := jsStr (r.getKey "type") }))
      | _ => none }

/-- Decode of a raw type entry (see `decodeSchemaField`). -/
def decodeSchemaType (j : Json) : SchemaType :=
  { name := jsStr (j.getKey "name")
    type := jsStr (j.getKey "type")
    description := jsOptStr (j.getKey "description")
    fields :=
      match j.getKey "fields" with
      | some (.arr xs) => some (xs.map decodeSchemaField)
      | _ => none }

/-- Decode of the raw value cast to `SanitySchema` (see `decodeSchemaField`). -/
def decodeSanitySchema (raw : Json) : SanitySchema :=
  { types :=
      match raw.getKey "types" with
      | some (.arr xs) => xs.map decodeSchemaType
      | _ => [] }

/-! ## Loader state and the load operations -/

/-- The on-disk state of a schema file: absent, unreadable, or present with
its raw content and the result of `JSON.parse` on it (`none` = parse error).
The parse outcome is carried alongside the content because the embedding
does not re-implement the JSON grammar. -/
inductive FileState where
  | absent
  | unreadable
  | file (content : String) (parsed : Option Json)

/-- The state of one validation-cache file. -/
inductive CacheFileState where
  | absent
  | corrupt
  | entry (e : ValidationCacheEntry)
deriving Repr, DecidableEq

/-- The schema filesystem: association list from (resolved) paths to file
states; a missing binding means the file is absent. -/
def FileSys := List (String × FileState)

/-- Look up a path in the filesystem. -/
def FileSys.stat (fs : FileSys) (p : String) : FileState :=
  (mapGet fs p).getD .absent

/-- The cache directory: association list from cache paths to cache files. -/
def CacheSys := List (String × CacheFileState)

/-- Look up a cache path. -/
def CacheSys.stat (cs : CacheSys) (p : String) : CacheFileState :=
  (mapGet cs p).getD .absent

/-- The mutable fields of the `SchemaLoader` class (validating version). -/
structure SchemaLoaderState where
  validationConfig : SchemaValidationConfig
  schema : Option SanitySchema
  rawSchema : Option Json
  resolvedTypes : List (String × ResolvedType)
  schemaPath : Option String
  lastValidationError : Option String

/-- The loader constructor with a fully-merged configuration. -/
def SchemaLoader.mk (cfg : SchemaValidationConfig) : SchemaLoaderState :=
  { validationConfig := cfg, schema := none, rawSchema := none,
    resolvedTypes := [], schemaPath := none, lastValidationError := none }

/-- `getLastValidationError`. -/
def getLastValidationError (s : SchemaLoaderState) : Option String :=
  s.lastValidationError

/-- sha256 content digest, modelled by an injective encoding of the content
(digest equality stands for content equality). -/
def computeHash (content : String) : String :=
  content

/-- `computeConfigHash`: digest of the stringified
`maxDepth`/`maxTypes`/`maxFieldsPerType` triple (and nothing else),
modelled by an injective encoding of that triple. -/
def computeConfigHash (cfg : SchemaValidationConfig) : String :=
  let d := cfg.maxDepth
  let t := cfg.maxTypes
  let f := cfg.maxFieldsPerType
  s!"maxDepth={d};maxTypes={t};maxFieldsPerType={f}"

/-- `getCachePath`: the per-schema-path cache file location, modelled by an
injective encoding of the schema path. -/
def getCachePath (schemaPath : String) : String :=
  "cache://" ++ schemaPath

/-- `readValidationCache`: a readable entry whose version, schema hash and
config hash all match yields the cached verdict; anything else (absent,
corrupt, or mismatching) is a miss. -/
def readValidationCache (cache : CacheSys) (cachePath schemaHash configHash : String) :
    Option SchemaValidationResult :=
  match cache.stat cachePath with
  | .absent => none
  | .corrupt => none
  | .entry e =>
    if e.version = CACHE_VERSION ∧ e.schemaHash = schemaHash ∧ e.configHash = configHash then
      some { valid := e.valid, error := e.error }
    else none

/-- `writeValidationCache` (the silent write-failure branch is modelled as
a successful write; claims never depend on a failed write). -/
def writeValidationCache (cache : CacheSys) (cachePath schemaHash configHash : String)
    (result : SchemaValidationResult) : CacheSys :=
  mapSet cache cachePath (.entry
    { version := CACHE_VERSION, schemaHash := schemaHash, configHash := configHash,
      valid := result.valid, error := result.error })

/-- `resolveTypesFromRaw`. -/
def resolveTypesFromRaw (s : SchemaLoaderState) (raw : Json) : SchemaLoaderState :=
  let s := { s with resolvedTypes := [] }
  if isGroqTypeSchema raw then
    { s with resolvedTypes := resolveGroqTypeSchema raw }
  else if isSanitySchema raw then
    let sch := decodeSanitySchema raw
    { s with schema := some sch, resolvedTypes := resolveTypes (some sch) }
  else s

/-- The state mutation of `loadFromPath`'s `catch` block (note that
`schemaPath` is not cleared there). -/
def clearOnCatch (s : SchemaLoaderState) : SchemaLoaderState :=
  { s with schema := none, rawSchema := none, resolvedTypes := [] }

/-- The successful tail of `loadFromPath`: install the parsed value and
resolve it. -/
def installSchema (s : SchemaLoaderState) (parsed : Json) (absolutePath : String) :
    SchemaLoaderState :=
  resolveTypesFromRaw
    { s with rawSchema := some parsed, schemaPath := some absolutePath } parsed

/-- The state mutation of a validation failure inside `loadFromPath`. -/
def failValidation (s : SchemaLoaderState) (msg : String) : SchemaLoaderState :=
  { s with lastValidationError := some msg, schema := none, rawSchema := none,
           resolvedTypes := [] }

/-- `loadFromPath` (validating version): returns the new loader state, the
new cache directory, and the boolean result.  `path.resolve` is modelled as
the identity on paths. -/
def loadFromPath (s : SchemaLoaderState) (fs : FileSys) (cache : CacheSys)
    (schemaPath : String) : SchemaLoaderState × CacheSys × Bool :=
  let s := { s with lastValidationError := none }
  let absolutePath := schemaPath
  match fs.stat absolutePath with
  | .absent => (s, cache, false)
  | .unreadable => (clearOnCatch s, cache, false)
  | .file content parsed =>
    match parsed with
    | none => (clearOnCatch s, cache, false)
    | some parsedJ =>
      if s.validationConfig.enabled then
        let schemaHash := computeHash content
        let configHash := computeConfigHash s.validationConfig
        let cachePath := getCachePath absolutePath
        let cachedResult :=
          if s.validationConfig.cacheValidation then
            readValidationCache cache cachePath schemaHash configHash
          else none
        match cachedResult with
        | some cr =>
          if !cr.valid then
            let errorMsg := cr.error.getD "Schema validation failed"
            (failValidation s (errorMsg ++ " (cached)"), cache, false)
          else
            (installSchema s parsedJ absolutePath, cache, true)
        | none =>
          let validation := validateSchema s.validationConfig parsedJ
          let cache' :=
            if s.validationConfig.cacheValidation then
              writeValidationCache cache cachePath schemaHash configHash validation
            else cache
          if !validation.valid then
            (failValidation s (validation.error.getD "Schema validation failed"), cache', false)
          else
            (installSchema s parsedJ absolutePath, cache', true)
      else
        (installSchema s parsedJ absolutePath, cache, true)

/-- `loadFromObject`: install the given schema object directly, with no
validation and no cache interaction (by construction: the function neither
reads the filesystem/cache nor consults `validationConfig`). -/
def loadFromObject (s : SchemaLoaderState) (schema : SanitySchema) : SchemaLoaderState :=
  { s with schema := some schema, schemaPath := none,
           resolvedTypes := resolveTypes (some schema) }

/-- `getType`. -/
def getType (s : SchemaLoaderState) (typeName : String) : Option ResolvedType :=
  mapGet s.resolvedTypes typeName

/-- `getDocumentTypes`. -/
def getDocumentTypes (s : SchemaLoaderState) : List ResolvedType :=
  (s.resolvedTypes.map (·.2)).filter (·.isDocument)

/-- `getAllTypes`. -/
def getAllTypes (s : SchemaLoaderState) : List ResolvedType :=
  s.resolvedTypes.map (·.2)

/-- `getTypeNames`. -/
def getTypeNames (s : SchemaLoaderState) : List String :=
  s.resolvedTypes.map (·.1)

/-- `getDocumentTypeNames`. -/
def getDocumentTypeNames (s : SchemaLoaderState) : List String :=
  (getDocumentTypes s).map (·.name)

/-- `getFieldsForType`. -/
def getFieldsForType (s : SchemaLoaderState) (typeName : String) : List ResolvedField :=
  match getType s typeName with
  | none => []
  | some t => t.fields.map (·.2)

/-- `getField`. -/
def getField (s : SchemaLoaderState) (typeName fieldName : String) : Option ResolvedField :=
  match getType s typeName with
  | none => none
  | some t => mapGet t.fields fieldName

/-- `isLoaded`. -/
def isLoaded (s : SchemaLoaderState) : Bool :=
  s.schema.isSome || s.rawSchema.isSome

/-! ## Extension registry (`ExtensionRegistry.ts`) -/

/-- An extension: a unique id plus its hook implementations (the hook
payloads play no role in the registration claims and are left abstract as
the list of implemented hook names). -/
structure Extension where
  id : String
  hookNames : List String
deriving Repr, DecidableEq

/-- `ExtensionConfig` (the `options` bag is kept as raw JSON). -/
structure ExtensionConfig where
  enabled : Bool
  options : Option Json

/-- The two maps owned by `ExtensionRegistry`. -/
structure ExtensionRegistryState where
  extensions : List (String × Extension)
  configs : List (String × ExtensionConfig)

/-- The empty registry. -/
def ExtensionRegistry.empty : ExtensionRegistryState :=
  { extensions := [], configs := [] }

/-- `register`: throws when the id is already present, otherwise records
the extension with a disabled config. -/
def ExtensionRegistry.register (s : ExtensionRegistryState) (extension : Extension) :
    Except String ExtensionRegistryState :=
  if (mapGet s.extensions extension.id).isSome then
    let i := extension.id
    .error s!"Extension \"{i}\" is already registered"
  else
    .ok { extensions := mapSet s.extensions extension.id extension,
          configs := mapSet s.configs extension.id { enabled := false, options := none } }

/-- `enable`: throws when the id is not registered, otherwise stores an
enabled config carrying the given options. -/
def ExtensionRegistry.enable (s : ExtensionRegistryState) (extensionId : String)
    (options : Option Json) : Except String ExtensionRegistryState :=
  if (mapGet s.extensions extensionId).isSome then
    .ok { s with configs := mapSet s.configs extensionId { enabled := true, options := options } }
  else
    .error s!"Extension \"{extensionId}\" is not registered"

/-- `isEnabled`. -/
def ExtensionRegistry.isEnabled (s : ExtensionRegistryState) (extensionId : String) : Bool :=
  ((mapGet s.configs extensionId).map (·.enabled)).getD false

/-! ## Association-list lemmas -/

theorem mapGet_cons {α : Type} (k0 : String) (v0 : α) (tl : List (String × α)) (k' : String) :
    mapGet ((k0, v0) :: tl) k' = if k0 = k' then some v0 else mapGet tl k' := by
  by_cases h : k0 = k' <;> simp [mapGet, List.find?, h]

theorem mapGet_mapSet_self {α : Type} (m : List (String × α)) (k : String) (v : α) :
    mapGet (mapSet m k v) k = some v := by
  induction m with
  | nil => simp [mapSet, mapGet_cons]
  | cons hd tl ih =>
    rcases hd with ⟨k0, v0⟩
    show mapGet (if k0 = k then (k, v) :: tl else (k0, v0) :: mapSet tl k v) k = some v
    by_cases h0 : k0 = k
    · rw [if_pos h0, mapGet_cons, if_pos rfl]
    · rw [if_neg h0, mapGet_cons, if_neg h0]
      exact ih

theorem mapGet_mapSet_ne {α : Type} (m : List (String × α)) (k k' : String) (v : α)
    (h : k' ≠ k) : mapGet (mapSet m k v) k' = mapGet m k' := by
  induction m with
  | nil =>
    show mapGet [(k, v)] k' = mapGet ([] : List (String × α)) k'
    rw [mapGet_cons, if_neg (fun hh => h hh.symm)]
  | cons hd tl ih =>
    rcases hd with ⟨k0, v0⟩
    show mapGet (if k0 = k then (k, v) :: tl else (k0, v0) :: mapSet tl k v) k'
        = mapGet ((k0, v0) :: tl) k'
    by_cases h0 : k0 = k
    · rw [if_pos h0, mapGet_cons, mapGet_cons,
        if_neg (fun hh => h hh.symm), if_neg (fun hh => h (h0.symm.trans hh).symm)]
    · rw [if_neg h0, mapGet_cons, mapGet_cons]
      by_cases h1 : k0 = k'
      · rw [if_pos h1, if_pos h1]
      · rw [if_neg h1, if_neg h1]
        exact ih

theorem mapGet_mapSet_isSome {α : Type} (m : List (String × α)) (k k' : String) (v : α)
    (h : (mapGet m k').isSome) : (mapGet (mapSet m k v) k').isSome := by
  by_cases hk : k' = k
  · subst hk; simp [mapGet_mapSet_self]
  · rwa [mapGet_mapSet_ne _ _ _ _ hk]

/-! ## Syntax-tree model (the node contract consumed from tree-sitter)

A tree is a flat table of node records; navigation (parent, children,
named children, named-field access) goes through node ids.  Upward walks
and recursive descents carry fuel (any value at least the node count is
enough on well-formed trees); the concrete trees used below are small and
well-formed. -/

/-- One syntax-tree node. -/
structure NodeData where
  id : Nat
  type : String
  text : String
  startIndex : Nat
  startRow : Nat
  startCol : Nat
  endRow : Nat
  endCol : Nat
  parent : Option Nat
  children : List Nat
  namedChildren : List Nat
  fields : List (String × Nat)
deriving Repr, DecidableEq

/-- A tree is its table of nodes. -/
def Tree := List NodeData

/-- Resolve a node id. -/
def Tree.node (t : Tree) (i : Nat) : Option NodeData :=
  (t : List NodeData).find? (fun n => n.id = i)

/-- `node.parent`. -/
def parentOf (t : Tree) (n : NodeData) : Option NodeData :=
  n.parent.bind t.node

/-- `node.child(i)`. -/
def childAt (t : Tree) (n : NodeData) (i : Nat) : Option NodeData :=
  (n.children.get? i).bind t.node

/-- `node.namedChild(i)`. -/
def namedChildAt (t : Tree) (n : NodeData) (i : Nat) : Option NodeData :=
  (n.namedChildren.get? i).bind t.node

/-- `getFieldNode` / `node.childForFieldName`. -/
def getFieldNode (t : Tree) (n : NodeData) (fieldName : String) : Option NodeData :=
  (mapGet n.fields fieldName).bind t.node

/-- `findAncestorOfType`: walk the parent chain for the first node whose
type is in the list. -/
def findAncestorOfTypeAux (t : Tree) (types : List String) :
    Nat → Option NodeData → Option NodeData
  | 0, _ => none
  | _, none => none
  | fuel + 1, some cur =>
    if types.contains cur.type then some cur
    else findAncestorOfTypeAux t types fuel (parentOf t cur)

/-- `findAncestorOfType` (starting, as in the source, at `node.parent`). -/
def findAncestorOfType (t : Tree) (n : NodeData) (types : List String) : Option NodeData :=
  findAncestorOfTypeAux t types ((t : List NodeData).length + 1) (parentOf t n)

/-- `node.children.find(c => c.type === ty)`. -/
def firstChildOfTypeAux (t : Tree) (ty : String) : List Nat → Option NodeData
  | [] => none
  | c :: cs =>
    match t.node c with
    | some cn => if cn.type = ty then some cn else firstChildOfTypeAux t ty cs
    | none => firstChildOfTypeAux t ty cs

/-- First child (over all children) of a given type. -/
def firstChildOfType (t : Tree) (n : NodeData) (ty : String) : Option NodeData :=
  firstChildOfTypeAux t ty n.children

/-- `walkTree` as a fold: the step function returns the new accumulator
and whether to descend into the node's children (the source callback's
`false` means "do not descend"; siblings are still visited). -/
def walkFold {σ : Type} (t : Tree) (f : σ → NodeData → σ × Bool) :
    Nat → σ → NodeData → σ
  | 0, st, _ => st
  | fuel + 1, st, n =>
    let r := f st n
    if r.2 then
      n.children.foldl (fun acc c =>
        match t.node c with
        | some cn => walkFold t f fuel acc cn
        | none => acc) r.1
    else r.1

/-- Run `walkTree` from a root with default fuel. -/
def walkTreeFold {σ : Type} (t : Tree) (f : σ → NodeData → σ × Bool) (st : σ)
    (root : NodeData) : σ :=
  walkFold t f ((t : List NodeData).length + 1) st root

/-! ## Type inference (`TypeInference.ts`, the version with nested-field
and function-body inference, which is the one the claims cite) -/

/-- `InferredContext`. -/
structure InferredContext where
  type : Option ResolvedType
  field : Option ResolvedField
  isArray : Bool
  documentTypes : List String
deriving Repr, DecidableEq

/-- The single-quote character (written by code point to keep literals plain). -/
def squote : Char := Char.ofNat 39

/-- The open-brace character. -/
def lbrace : Char := Char.ofNat 123

/-- The close-brace character. -/
def rbrace : Char := Char.ofNat 125

/-- `text.startsWith(p)`. -/
def strStarts (s p : String) : Bool :=
  listLeads p.toList s.toList

/-- `text.endsWith(p)`. -/
def strEnds (s p : String) : Bool :=
  listLeads p.toList.reverse s.toList.reverse

/-- `text.slice(1, -1)`. -/
def sliceInner (s : String) : String :=
  String.mk ((s.toList.drop 1).dropLast)

/-- `isTypeComparison`: a `comparison_expression` whose `left` field is the
identifier `_type` and whose `operator` field reads `==`. -/
def isTypeComparison (t : Tree) (n : NodeData) : Bool :=
  n.type = "comparison_expression" &&
  (match getFieldNode t n "left" with
   | some leftNode => leftNode.type = "identifier" && leftNode.text = "_type"
   | none => false) &&
  (match getFieldNode t n "operator" with
   | some operatorNode => operatorNode.text = "=="
   | none => false)

/-- `findTypeComparison`: the node itself, or the last type comparison in
the pruned pre-order walk (the source's `walkTree` callback keeps
overwriting `result` and prunes beneath each hit). -/
def findTypeComparison (t : Tree) (node : NodeData) : Option NodeData :=
  if isTypeComparison t node then some node
  else
    walkTreeFold t
      (fun st n => if isTypeComparison t n then (some n, false) else (st, true))
      none node

/-- `extractTypeName`: the string literal on the comparison's `right`
field, with its surrounding quotes stripped. -/
def extractTypeName (t : Tree) (comparisonNode : NodeData) : Option String :=
  match getFieldNode t comparisonNode "right" with
  | none => none
  | some rightNode =>
    if rightNode.type = "string" then
      let text := rightNode.text
      let dq := String.mk ['"']
      let sq := String.mk [squote]
      if (strStarts text dq && strEnds text dq) ||
         (strStarts text sq && strEnds text sq) then
        some (sliceInner text)
      else none
    else none

/-- `findTypeFilter` (the variant that also inspects the sibling
subscript of an enclosing projection): walk ancestors looking for a type
comparison in a subscript index. -/
def findTypeFilterAux (t : Tree) : Nat → Option NodeData → Option NodeData
  | 0, _ => none
  | _, none => none
  | fuel + 1, some current =>
    let r1 :=
      if current.type = "subscript_expression" then
        (getFieldNode t current "index").bind (findTypeComparison t)
      else none
    match r1 with
    | some c => some c
    | none =>
      let r2 :=
        if current.type = "projection" then
          match parentOf t current with
          | some p =>
            if p.type = "projection_expression" then
              match getFieldNode t p "base" with
              | some baseNode =>
                if baseNode.type = "subscript_expression" then
                  (getFieldNode t baseNode "index").bind (findTypeComparison t)
                else none
              | none => none
            else none
          | none => none
        else none
      match r2 with
      | some c => some c
      | none => findTypeFilterAux t fuel (parentOf t current)

/-- `findTypeFilter` (starting at the node itself). -/
def findTypeFilter (t : Tree) (node : NodeData) : Option NodeData :=
  findTypeFilterAux t ((t : List NodeData).length + 1) (some node)

/-- The item-type scan shared by `findArrayItemType` and
`inferArrayFieldType`: first type in the list owning `fieldName` as an
array field whose first element type resolves (lookup misses continue the
scan). -/
def scanArrayItemType (loader : SchemaLoaderState) (fieldName : String) :
    List String → Option ResolvedType
  | [] => none
  | typeName :: rest =>
    match getField loader typeName fieldName with
    | some field =>
      match field.isArray, field.arrayOf with
      | true, some (itemTypeName :: _) =>
        match getType loader itemTypeName with
        | some itemType => some itemType
        | none => scanArrayItemType loader fieldName rest
      | _, _ => scanArrayItemType loader fieldName rest
    | none => scanArrayItemType loader fieldName rest

/-- `findArrayItemType` (text-fallback helper): scan every known type. -/
def findArrayItemType (fieldName : String) (loader : SchemaLoaderState) : Option ResolvedType :=
  scanArrayItemType loader fieldName (getTypeNames loader)

/-- `inferArrayFieldType`: a projection whose `projection_expression`
sibling subscript is `field[]` resolves to the array element type of that
field, looked up under an explicit `_type` filter when present and under
every known type otherwise. -/
def inferArrayFieldType (t : Tree) (node : NodeData) (loader : SchemaLoaderState) :
    Option ResolvedType :=
  match findAncestorOfType t node ["projection"] with
  | none => none
  | some projection =>
    match parentOf t projection with
    | none => none
    | some projExpr =>
      if projExpr.type = "projection_expression" then
        match firstChildOfType t projExpr "subscript_expression" with
        | none => none
        | some subscriptExpr =>
          match getFieldNode t subscriptExpr "base" with
          | some baseNode =>
            if baseNode.type = "identifier" then
              let fieldName := baseNode.text
              let parentTypes :=
                match findTypeFilter t subscriptExpr with
                | some parentTypeFilter =>
                  match extractTypeName t parentTypeFilter with
                  | some typeName => [typeName]
                  | none => []
                | none => []
              let parentTypes :=
                if parentTypes.isEmpty then getTypeNames loader else parentTypes
              scanArrayItemType loader fieldName parentTypes
            else none
          | none => none
      else none

/-- The `return` outcome for a field found while resolving a projection
base: reference fields yield their first target type, other non-`object`
field types are looked up by name; `object` fields yield no outcome. -/
def gptcFieldStep (loader : SchemaLoaderState) (field : ResolvedField) :
    Option (Option ResolvedType) :=
  match field.isReference, field.referenceTargets with
  | true, some (targetName :: _) => some (getType loader targetName)
  | _, _ =>
    if field.type ≠ "" && field.type ≠ "object" then
      some (getType loader field.type)
    else none

/-- the identifier-base fallback loop over all known types (its `return`s
short-circuit; a hit that yields nothing continues the loop). -/
def gptcIdentScan (loader : SchemaLoaderState) (fieldName : String) :
    List String → Option (Option ResolvedType)
  | [] => none
  | typeName :: rest =>
    match getField loader typeName fieldName with
    | some field =>
      match gptcFieldStep loader field with
      | some r => some r
      | none => gptcIdentScan loader fieldName rest
    | none => gptcIdentScan loader fieldName rest

/-- the subscript-base fallback loop over all known types. -/
def gptcArrayScan (loader : SchemaLoaderState) (fieldName : String) :
    List String → Option (Option ResolvedType)
  | [] => none
  | typeName :: rest =>
    match getField loader typeName fieldName with
    | some field =>
      match field.isArray, field.arrayOf with
      | true, some (itemName :: _) => some (getType loader itemName)
      | _, _ => gptcArrayScan loader fieldName rest
    | none => gptcArrayScan loader fieldName rest

mutual

/-- `getParentTypeContext`: resolve the type a `projection_expression` is
projected from, by walking up through enclosing projections, following
identifier bases (reference / named inline fields), `field[]` subscript
bases (array element types) and explicit `_type` filters.  `return X`
statements inside the source loops (including `return … ?? null`) are
modelled as `some X` outcomes of the per-iteration step; a step outcome of
`none` continues the upward walk. -/
def getParentTypeContext (t : Tree) (loader : SchemaLoaderState) (fuel : Nat)
    (projExpr : NodeData) : Option ResolvedType :=
  match fuel with
  | 0 => none
  | fuel + 1 => gptcWalk t loader fuel (parentOf t projExpr)

/-- the `while (current)` loop of `getParentTypeContext`. -/
def gptcWalk (t : Tree) (loader : SchemaLoaderState) (fuel : Nat) :
    Option NodeData → Option ResolvedType
  | none => none
  | some current =>
    match fuel with
    | 0 => none
    | fuel + 1 =>
      let projStep : Option (Option ResolvedType) :=
        if current.type = "projection" then
          match parentOf t current with
          | some parentProjExpr =>
            if parentProjExpr.type = "projection_expression" then
              match getFieldNode t parentProjExpr "base" with
              | some baseNode =>
                if baseNode.type = "identifier" then
                  let fieldName := baseNode.text
                  let viaGrand : Option (Option ResolvedType) :=
                    match getParentTypeContext t loader fuel parentProjExpr with
                    | some grandparentContext =>
                      match getField loader grandparentContext.name fieldName with
                      | some field => gptcFieldStep loader field
                      | none => none
                    | none => none
                  match viaGrand with
                  | some r => some r
                  | none => gptcIdentScan loader fieldName (getTypeNames loader)
                else if baseNode.type = "subscript_expression" then
                  let viaFilter : Option (Option ResolvedType) :=
                    match getFieldNode t baseNode "index" with
                    | some indexNode =>
                      match findTypeComparison t indexNode with
                      | some typeComparison =>
                        match extractTypeName t typeComparison with
                        | some typeName => some (getType loader typeName)
                        | none => none
                      | none => none
                    | none => none
                  match viaFilter with
                  | some r => some r
                  | none =>
                    match getFieldNode t baseNode "base" with
                    | some arrayBase =>
                      if arrayBase.type = "identifier" then
                        let fieldName := arrayBase.text
                        let viaGrand : Option (Option ResolvedType) :=
                          match getParentTypeContext t loader fuel parentProjExpr with
                          | some grandparentContext =>
                            match getField loader grandparentContext.name fieldName with
                            | some field =>
                              match field.isArray, field.arrayOf with
                              | true, some (itemName :: _) => some (getType loader itemName)
                              | _, _ => none
                            | none => none
                          | none => none
                        match viaGrand with
                        | some r => some r
                        | none => gptcArrayScan loader fieldName (getTypeNames loader)
                      else none
                    | none => none
                else none
              | none => none
            else none
          | none => none
        else none
      match projStep with
      | some r => r
      | none =>
        let filterStep : Option (Option ResolvedType) :=
          if current.type = "subscript_expression" then
            match getFieldNode t current "index" with
            | some indexNode =>
              match findTypeComparison t indexNode with
              | some typeComparison =>
                match extractTypeName t typeComparison with
                | some typeName => some (getType loader typeName)
                | none => none
              | none => none
            | none => none
          else none
        match filterStep with
        | some r => r
        | none => gptcWalk t loader fuel (parentOf t current)

end

/-- `inferNestedFieldType`: a projection whose `projection_expression`
base is a bare identifier resolves through the enclosing projection's
type: reference fields to their first target, named inline fields to the
type of that name. -/
def inferNestedFieldType (t : Tree) (node : NodeData) (loader : SchemaLoaderState) :
    Option ResolvedType :=
  let projection :=
    if node.type = "projection" then some node
    else findAncestorOfType t node ["projection"]
  match projection with
  | none => none
  | some projection =>
    match parentOf t projection with
    | none => none
    | some projExpr =>
      if projExpr.type = "projection_expression" then
        match getFieldNode t projExpr "base" with
        | none => none
        | some baseNode =>
          if baseNode.type = "identifier" then
            let fieldName := baseNode.text
            match getParentTypeContext t loader ((t : List NodeData).length + 1) projExpr with
            | none => none
            | some parentContext =>
              match getField loader parentContext.name fieldName with
              | none => none
              | some field =>
                match field.isReference, field.referenceTargets with
                | true, some (targetTypeName :: _) => getType loader targetTypeName
                | _, _ =>
                  if field.type ≠ "" && field.type ≠ "object" then
                    getType loader field.type
                  else none
          else none
      else none

/-- `finalizeContext`: attach the resolved field when the node sits in an
access/dereference expression, and mark array-ness under an `everything`
subscript base. -/
def finalizeContext (t : Tree) (context : InferredContext) (node : NodeData)
    (loader : SchemaLoaderState) : InferredContext :=
  let context :=
    match findAncestorOfType t node ["access_expression", "dereference_expression"],
          context.type with
    | some accessExpr, some ty =>
      match getFieldNode t accessExpr "member" with
      | some memberNode => { context with field := getField loader ty.name memberNode.text }
      | none => context
    | _, _ => context
  match findAncestorOfType t node ["subscript_expression"] with
  | some subscriptExpr =>
    match getFieldNode t subscriptExpr "base" with
    | some baseNode =>
      if baseNode.type = "everything" then { context with isArray := true } else context
    | none => context
  | none => context

/-- `inferTypeContext` (general structural inference): nested-field
projection first, then array-field projection, then explicit `_type`
filter, then the all-document-types fallback; a final pass attaches
field/array detail. -/
def inferTypeContext (t : Tree) (node : NodeData) (loader : SchemaLoaderState) :
    InferredContext :=
  match inferNestedFieldType t node loader with
  | some nestedFieldType =>
    finalizeContext t
      { type := some nestedFieldType, field := none, isArray := false,
        documentTypes := [nestedFieldType.name] } node loader
  | none =>
    match inferArrayFieldType t node loader with
    | some arrayFieldType =>
      finalizeContext t
        { type := some arrayFieldType, field := none, isArray := true,
          documentTypes := [arrayFieldType.name] } node loader
    | none =>
      let viaFilter : Option ResolvedType × List String :=
        match findTypeFilter t node with
        | some typeFilter =>
          match extractTypeName t typeFilter with
          | some typeName => (getType loader typeName, [typeName])
          | none => (none, [])
        | none => (none, [])
      let context :=
        match viaFilter.1 with
        | some ty =>
          { type := some ty, field := none, isArray := false,
            documentTypes := viaFilter.2 }
        | none =>
          { type := none, field := none, isArray := false,
            documentTypes := getDocumentTypeNames loader }
      finalizeContext t context node loader

/-! ### Text-pattern fallback (`inferTypeContextFromText`) -/

/-- A `\w` character. -/
def isWordChar (c : Char) : Bool :=
  c.isAlphanum || c = '_'

/-- Greedy `\w+` run. -/
def takeWord (cs : List Char) : List Char × List Char :=
  (cs.takeWhile isWordChar, cs.dropWhile isWordChar)

/-- Greedy `\s*` run. -/
def dropWs (cs : List Char) : List Char :=
  cs.dropWhile (·.isWhitespace)

/-- Attempt of the regex `(\w+)\[\]\s*\{\s*[^}]*$` at one position. -/
def tryArrayFieldAt (cs : List Char) : Option String :=
  let w := takeWord cs
  if w.1.isEmpty then none
  else
    match w.2 with
    | '[' :: ']' :: rest2 =>
      match dropWs rest2 with
      | c :: rest4 =>
        if c = lbrace && rest4.all (· ≠ rbrace) then some (String.mk w.1) else none
      | [] => none
    | _ => none

/-- Leftmost match of the array-projection pattern. -/
def scanArrayFieldPattern : List Char → Option String
  | [] => none
  | c :: cs =>
    match tryArrayFieldAt (c :: cs) with
    | some w => some w
    | none => scanArrayFieldPattern cs

/-- Attempt of the regex `_type\s*==\s*["'](\w+)["']` at one position. -/
def tryTypePatternAt (cs : List Char) : Option String :=
  match cs with
  | '_' :: 't' :: 'y' :: 'p' :: 'e' :: rest =>
    match dropWs rest with
    | '=' :: '=' :: rest2 =>
      match dropWs rest2 with
      | q :: rest3 =>
        if q = '"' || q = squote then
          let w := takeWord rest3
          if w.1.isEmpty then none
          else
            match w.2 with
            | q2 :: _ => if q2 = '"' || q2 = squote then some (String.mk w.1) else none
            | [] => none
        else none
      | [] => none
    | _ => none
  | _ => none

/-- Leftmost match of the `_type == "…"` pattern. -/
def scanTypePattern : List Char → Option String
  | [] => none
  | c :: cs =>
    match tryTypePatternAt (c :: cs) with
    | some w => some w
    | none => scanTypePattern cs

/-- `split('\n')` over the character list (structural recursion, so that
concrete queries evaluate inside proofs). -/
def splitNlChars : List Char → List (List Char)
  | [] => [[]]
  | c :: cs =>
    let r := splitNlChars cs
    if c = '\n' then [] :: r
    else
      match r with
      | [] => [[c]]
      | l :: ls => (c :: l) :: ls

/-- `source.split('\n')`. -/
def strSplitNl (s : String) : List String :=
  (splitNlChars s.toList).map String.mk

/-- `line.trim()`. -/
def strTrim (s : String) : String :=
  String.mk
    (((s.toList.dropWhile (·.isWhitespace)).reverse.dropWhile
      (·.isWhitespace)).reverse)

/-- `lines.join('\n')`. -/
def strJoinNl : List String → String
  | [] => ""
  | l :: rest => rest.foldl (fun acc x => acc ++ "\n" ++ x) l

/-- `getTextBeforeCursor`. -/
def getTextBeforeCursor (source : String) (position : Nat × Nat) : String :=
  let lines := strSplitNl source
  let before := (lines.take position.1).foldl (fun acc l => acc ++ l ++ "\n") ""
  match lines.get? position.1 with
  | some line => before ++ String.mk (line.toList.take position.2)
  | none => before

/-- `inferTypeContextFromText`: array-projection pattern first, then the
explicit `_type` literal, then the all-document-types fallback. -/
def inferTypeContextFromText (source : String) (position : Nat × Nat)
    (loader : SchemaLoaderState) : InferredContext :=
  let textBeforeCursor := getTextBeforeCursor source position
  let viaArray : Option InferredContext :=
    (scanArrayFieldPattern textBeforeCursor.toList).bind (fun fieldName =>
      (findArrayItemType fieldName loader).map (fun itemType =>
        { type := some itemType, field := none, isArray := true,
          documentTypes := [itemType.name] }))
  match viaArray with
  | some c => c
  | none =>
    let viaType : Option InferredContext :=
      (scanTypePattern textBeforeCursor.toList).bind (fun typeName =>
        (getType loader typeName).map (fun ty =>
          { type := some ty, field := none, isArray := false,
            documentTypes := [typeName] }))
    match viaType with
    | some c => c
    | none =>
      { type := none, field := none, isArray := false,
        documentTypes := getDocumentTypeNames loader }

/-- Every value in a `mapSet`-built fold satisfies `P` when every inserted
value does and the initial values do. -/
theorem mapGet_mapSet_forall {α : Type} (m : List (String × α)) (k k' : String) (v : α)
    {P : α → Prop} (hm : ∀ x, mapGet m k' = some x → P x) (hv : P v) :
    ∀ x, mapGet (mapSet m k v) k' = some x → P x := by
  intro x hx
  by_cases hk : k' = k
  · subst hk; rw [mapGet_mapSet_self] at hx; cases hx; exact hv
  · rw [mapGet_mapSet_ne _ _ _ _ hk] at hx; exact hm x hx

/-! ## Function registry (`FunctionRegistry.ts`) -/

/-- `FunctionParameter` (the inferred-type set is an insertion-ordered,
duplicate-free list). -/
structure FunctionParameter where
  name : String
  inferredTypes : List String
  declaredType : Option String
  typeAnnotationRange : Option (Nat × Nat)
deriving Repr, DecidableEq

/-- `FunctionDefinition` (nodes are referenced by id). -/
structure FunctionDefinition where
  name : String
  nameNode : Nat
  parameters : List FunctionParameter
  bodyNode : Nat
deriving Repr, DecidableEq

/-- `CallSiteInfo`. -/
structure CallSiteInfo where
  functionName : String
  argumentTypes : List (Option (List String))
  callNode : Nat
deriving Repr, DecidableEq

/-- The maps owned by `FunctionRegistry` after one `extractFromAST` pass. -/
structure FunctionRegistryState where
  definitions : List (String × FunctionDefinition)
  callSites : List (String × List CallSiteInfo)
  rawSource : String
deriving Repr, DecidableEq

/-- First character of `[_A-Za-z]`. -/
def isIdentStart (c : Char) : Bool :=
  c.isAlpha || c = '_'

/-- Character of `[_0-9A-Za-z]`. -/
def isIdentChar (c : Char) : Bool :=
  c.isAlphanum || c = '_'

/-- Attempt of the `@param` regex
`//\s*@param\s*\{(ident)\}\s*(\$ident)` at one position; returns the type
name, the parameter name (with its `$` sigil), the offset of the type name
within the match, and the match length. -/
def tryParamAnnotAt (cs : List Char) : Option (String × String × Nat × Nat) :=
  match cs with
  | '/' :: '/' :: r1 =>
    let ws1 := r1.takeWhile (·.isWhitespace)
    match r1.dropWhile (·.isWhitespace) with
    | '@' :: 'p' :: 'a' :: 'r' :: 'a' :: 'm' :: r2 =>
      let ws2 := r2.takeWhile (·.isWhitespace)
      match r2.dropWhile (·.isWhitespace) with
      | b :: r3 =>
        if b = lbrace then
          match r3 with
          | t0 :: r4 =>
            if isIdentStart t0 then
              let trest := r4.takeWhile isIdentChar
              let tyName := String.mk (t0 :: trest)
              match r4.dropWhile isIdentChar with
              | b2 :: r5 =>
                if b2 = rbrace then
                  let ws3 := r5.takeWhile (·.isWhitespace)
                  match r5.dropWhile (·.isWhitespace) with
                  | '$' :: p0 :: r6 =>
                    if isIdentStart p0 then
                      let prest := r6.takeWhile isIdentChar
                      let pName := String.mk ('$' :: p0 :: prest)
                      let tyOff := 2 + ws1.length + 6 + ws2.length + 1
                      let mLen := tyOff + tyName.length + 1 + ws3.length + pName.length
                      some (tyName, pName, tyOff, mLen)
                    else none
                  | _ => none
                else none
              | [] => none
            else none
          | [] => none
        else none
      | [] => none
    | _ => none
  | _ => none

/-- Successive non-overlapping matches of the `@param` regex (as produced
by repeated `regex.exec`), with absolute type-name ranges. -/
def scanParamAnnots : Nat → List Char → Nat → List (String × String × Nat × Nat)
  | 0, _, _ => []
  | _, [], _ => []
  | fuel + 1, c :: cs, pos =>
    match tryParamAnnotAt (c :: cs) with
    | some r =>
      (r.1, r.2.1, pos + r.2.2.1, pos + r.2.2.1 + r.1.length) ::
        scanParamAnnots fuel ((c :: cs).drop r.2.2.2) (pos + r.2.2.2)
    | none => scanParamAnnots fuel cs (pos + 1)

/-- Start index of the last contiguous `//`-comment block (blank lines
allowed inside) immediately before the function. -/
def findCommentBlockStart (lines : List String) : Option Nat :=
  go lines.enum.reverse none
where
  /-- the downward `for` loop of `extractParamTypeAnnotations`. -/
  go : List (Nat × String) → Option Nat → Option Nat
    | [], acc => acc
    | (i, line) :: rest, acc =>
      let trimmed := strTrim line
      if strStarts trimmed "//" then go rest (some i)
      else if trimmed = "" then go rest acc
      else acc

/-- `extractParamTypeAnnotations`: parse `// @param {type} $name`
annotations from the comment block immediately before `funcStartIndex`. -/
def extractParamTypeAnnotations (rawSource : String) (funcStartIndex : Nat) :
    List (String × (String × (Nat × Nat))) :=
  if rawSource = "" then []
  else
    let beforeFunc := String.mk (rawSource.toList.take funcStartIndex)
    let lines := strSplitNl beforeFunc
    match findCommentBlockStart lines with
    | none => []
    | some commentBlockStart =>
      let blockStartOffset :=
        ((lines.take commentBlockStart).map (fun l => l.length + 1)).sum
      let commentBlock := strJoinNl (lines.drop commentBlockStart)
      let cs := commentBlock.toList
      (scanParamAnnots (cs.length + 1) cs 0).foldl
        (fun m r =>
          mapSet m r.2.1 (r.1, (blockStartOffset + r.2.2.1, blockStartOffset + r.2.2.2)))
        []

/-- the parameter-collection loop of `extractFunctionDefinitions`. -/
def collectParameters (t : Tree)
    (typeAnnotations : List (String × (String × (Nat × Nat))))
    (paramChildren : List Nat) : List FunctionParameter :=
  paramChildren.foldl (fun ps c =>
    match t.node c with
    | some child =>
      if child.type = "variable" then
        let ann := mapGet typeAnnotations child.text
        ps ++ [{ name := child.text, inferredTypes := [],
                 declaredType := ann.map (·.1),
                 typeAnnotationRange := ann.map (·.2) }]
      else ps
    | none => ps) []

/-- `extractFunctionDefinitions`: one definition per `function_definition`
node carrying both a `name` and a `body` field. -/
def extractFunctionDefinitions (t : Tree) (root : NodeData) (rawSource : String) :
    List (String × FunctionDefinition) :=
  walkTreeFold t
    (fun defs node =>
      if node.type = "function_definition" then
        match getFieldNode t node "name" with
        | none => (defs, true)
        | some nameNode =>
          let funcName := nameNode.text
          let paramListNode := firstChildOfType t node "parameter_list"
          match getFieldNode t node "body" with
          | none => (defs, true)
          | some bodyNode =>
            let typeAnnotations := extractParamTypeAnnotations rawSource node.startIndex
            let parameters :=
              match paramListNode with
              | some pl => collectParameters t typeAnnotations pl.children
              | none => []
            (mapSet defs funcName
              { name := funcName, nameNode := nameNode.id,
                parameters := parameters, bodyNode := bodyNode.id }, true)
      else (defs, true))
    [] root

/-- The field-to-types yield of `inferArgumentType` for an identifier
argument: array element types, then reference targets, then the bare field
type unless it is `object`. -/
def argFieldYield (field : ResolvedField) : Option (List String) :=
  match field.isArray, field.arrayOf with
  | true, some (x :: xs) => some (x :: xs)
  | _, _ =>
    match field.isReference, field.referenceTargets with
    | true, some (x :: xs) => some (x :: xs)
    | _, _ => if field.type ≠ "object" then some [field.type] else none

/-- the identifier fallback loop of `inferArgumentType` over every known
type (a found field that yields nothing continues the scan). -/
def argScanTypes (loader : SchemaLoaderState) (fieldName : String) :
    List String → Option (List String)
  | [] => none
  | typeName :: rest =>
    match getField loader typeName fieldName with
    | some field =>
      match argFieldYield field with
      | some r => some r
      | none => argScanTypes loader fieldName rest
    | none => argScanTypes loader fieldName rest

/-- The array-only yield of `inferArgumentType` for a subscript argument. -/
def argArrayYield (field : ResolvedField) : Option (List String) :=
  match field.isArray, field.arrayOf with
  | true, some (x :: xs) => some (x :: xs)
  | _, _ => none

/-- the subscript fallback loop of `inferArgumentType`. -/
def argScanArrayTypes (loader : SchemaLoaderState) (fieldName : String) :
    List String → Option (List String)
  | [] => none
  | typeName :: rest =>
    match getField loader typeName fieldName with
    | some field =>
      match argArrayYield field with
      | some r => some r
      | none => argScanArrayTypes loader fieldName rest
    | none => argScanArrayTypes loader fieldName rest

/-- `inferArgumentType`: schema-driven, best-effort typing of one call
argument. -/
def inferArgumentType (t : Tree) (loaderOpt : Option SchemaLoaderState)
    (argNode : NodeData) : Option (List String) :=
  match loaderOpt with
  | none => none
  | some loader =>
    if !isLoaded loader then none
    else
      let viaIdent : Option (List String) :=
        if argNode.type = "identifier" then
          let fieldName := argNode.text
          let viaCtx : Option (List String) :=
            match (inferTypeContext t argNode loader).type with
            | some ty => (getField loader ty.name fieldName).bind argFieldYield
            | none => none
          match viaCtx with
          | some r => some r
          | none => argScanTypes loader fieldName (getTypeNames loader)
        else none
      match viaIdent with
      | some r => some r
      | none =>
        let viaSubscript : Option (List String) :=
          if argNode.type = "subscript_expression" then
            match getFieldNode t argNode "base" with
            | some baseNode =>
              if baseNode.type = "identifier" then
                let fieldName := baseNode.text
                let viaCtx : Option (List String) :=
                  match (inferTypeContext t argNode loader).type with
                  | some ty => (getField loader ty.name fieldName).bind argArrayYield
                  | none => none
                match viaCtx with
                | some r => some r
                | none => argScanArrayTypes loader fieldName (getTypeNames loader)
              else none
            | none => none
          else none
        match viaSubscript with
        | some r => some r
        | none =>
          if argNode.type = "access_expression" || argNode.type = "dereference_expression" then
            match (inferTypeContext t argNode loader).type with
            | some ty => some [ty.name]
            | none => none
          else none

/-- the argument-collection loop of `extractCallSites` (named children
other than the name node, in order). -/
def collectArgumentTypes (t : Tree) (loaderOpt : Option SchemaLoaderState)
    (nameNodeId : Nat) (namedChildren : List Nat) : List (Option (List String)) :=
  namedChildren.foldl (fun acc c =>
    match t.node c with
    | some child =>
      if child.id ≠ nameNodeId then acc ++ [inferArgumentType t loaderOpt child]
      else acc
    | none => acc) []

/-- `extractCallSites`: one call-site record per `function_call` whose
callee name has a known definition. -/
def extractCallSites (t : Tree) (root : NodeData)
    (definitions : List (String × FunctionDefinition))
    (loaderOpt : Option SchemaLoaderState) : List (String × List CallSiteInfo) :=
  walkTreeFold t
    (fun sites node =>
      if node.type = "function_call" then
        match getFieldNode t node "name" with
        | none => (sites, true)
        | some nameNode =>
          let funcName := nameNode.text
          if (mapGet definitions funcName).isSome then
            let argumentTypes := collectArgumentTypes t loaderOpt nameNode.id node.namedChildren
            let callInfo : CallSiteInfo :=
              { functionName := funcName, argumentTypes := argumentTypes,
                callNode := node.id }
            let existing := (mapGet sites funcName).getD []
            (mapSet sites funcName (existing ++ [callInfo]), true)
          else (sites, true)
      else (sites, true))
    [] root

/-- Union one argument's inferred types into the parameter at index `i`
(the in-place `Set.add` loop of `propagateTypes`). -/
def unionAt : List FunctionParameter → Nat → List String → List FunctionParameter
  | [], _, _ => []
  | p :: ps, 0, ts => { p with inferredTypes := ts.foldl setAdd p.inferredTypes } :: ps
  | p :: ps, i + 1, ts => p :: unionAt ps i ts

/-- the indexed argument loop of `propagateTypes` for one call site,
starting at argument index `i`. -/
def applyArgsFrom : List FunctionParameter → Nat → List (Option (List String)) →
    List FunctionParameter
  | ps, _, [] => ps
  | ps, i, some argTypes :: rest =>
    applyArgsFrom (if i < ps.length then unionAt ps i argTypes else ps) (i + 1) rest
  | ps, i, none :: rest => applyArgsFrom ps (i + 1) rest

/-- the per-call-site loop body of `propagateTypes`. -/
def applyCallSite (defn : FunctionDefinition) (callSite : CallSiteInfo) :
    FunctionDefinition :=
  { defn with parameters := applyArgsFrom defn.parameters 0 callSite.argumentTypes }

/-- `propagateTypes`: for each call site, union each argument's inferred
types into the corresponding parameter's inferred-type set. -/
def propagateTypes (definitions : List (String × FunctionDefinition))
    (callSites : List (String × List CallSiteInfo)) :
    List (String × FunctionDefinition) :=
  callSites.foldl (fun defs fnSites =>
    match mapGet defs fnSites.1 with
    | none => defs
    | some defn => mapSet defs fnSites.1 (fnSites.2.foldl applyCallSite defn)) definitions

/-- `extractFromAST`: clear, extract definitions, extract call sites,
propagate types. -/
def extractFromAST (t : Tree) (root : NodeData) (loaderOpt : Option SchemaLoaderState)
    (rawSource : String) : FunctionRegistryState :=
  let definitions := extractFunctionDefinitions t root rawSource
  let callSites := extractCallSites t root definitions loaderOpt
  { definitions := propagateTypes definitions callSites,
    callSites := callSites, rawSource := rawSource }

/-- `getDefinition`. -/
def getDefinition (reg : FunctionRegistryState) (name : String) :
    Option FunctionDefinition :=
  mapGet reg.definitions name

/-- `getInferredParameterType`. -/
def getInferredParameterType (reg : FunctionRegistryState) (funcName : String)
    (paramIndex : Nat) : List String :=
  match mapGet reg.definitions funcName with
  | none => []
  | some defn =>
    match defn.parameters.get? paramIndex with
    | some p => p.inferredTypes
    | none => []

/-- `hasDefinition`. -/
def hasDefinition (reg : FunctionRegistryState) (name : String) : Bool :=
  (mapGet reg.definitions name).isSome

/-- `getCallSites`. -/
def getCallSites (reg : FunctionRegistryState) (funcName : String) : List CallSiteInfo :=
  (mapGet reg.callSites funcName).getD []

/-- `isInsideFunctionBody`: nearest `function_definition` ancestor,
resolved back to a registry entry by its name node's text. -/
def isInsideFunctionBody (t : Tree) (reg : FunctionRegistryState) (node : NodeData) :
    Option FunctionDefinition :=
  match findAncestorOfType t node ["function_definition"] with
  | none => none
  | some funcDef =>
    match getFieldNode t funcDef "name" with
    | none => none
    | some nameNode => mapGet reg.definitions nameNode.text

/-! ## Function-body type inference (`inferTypeContextInFunctionBody`) -/

/-- `findParameterByName`. -/
def findParameterByName (name : String) (functionDef : FunctionDefinition) : Option Nat :=
  functionDef.parameters.findIdx? (fun p => p.name = name)

/-- the upward walk of `findParameterVariable`. -/
def findParameterVariableAux (t : Tree) (functionDef : FunctionDefinition) :
    Nat → Option NodeData → Option (String × Nat)
  | 0, _ => none
  | _, none => none
  | fuel + 1, some current =>
    let r1 :=
      if current.type = "variable" then
        (findParameterByName current.text functionDef).map (fun i => (current.text, i))
      else none
    match r1 with
    | some r => some r
    | none =>
      let r2 :=
        if current.type = "subscript_expression" || current.type = "access_expression" then
          match getFieldNode t current "base" with
          | some baseNode =>
            if baseNode.type = "variable" then
              (findParameterByName baseNode.text functionDef).map
                (fun i => (baseNode.text, i))
            else none
          | none => none
        else none
      match r2 with
      | some r => some r
      | none => findParameterVariableAux t functionDef fuel (parentOf t current)

/-- `findParameterVariable`. -/
def findParameterVariable (t : Tree) (node : NodeData)
    (functionDef : FunctionDefinition) : Option (String × Nat) :=
  findParameterVariableAux t functionDef ((t : List NodeData).length + 1) (some node)

/-- `finalizeContextInFunctionBody` (like `finalizeContext`, but marks
array-ness for a `variable` subscript base). -/
def finalizeContextInFunctionBody (t : Tree) (context : InferredContext)
    (node : NodeData) (loader : SchemaLoaderState) : InferredContext :=
  let context :=
    match findAncestorOfType t node ["access_expression", "dereference_expression"],
          context.type with
    | some accessExpr, some ty =>
      match getFieldNode t accessExpr "member" with
      | some memberNode => { context with field := getField loader ty.name memberNode.text }
      | none => context
    | _, _ => context
  match findAncestorOfType t node ["subscript_expression"] with
  | some subscriptExpr =>
    match getFieldNode t subscriptExpr "base" with
    | some baseNode =>
      if baseNode.type = "variable" then { context with isArray := true } else context
    | none => context
  | none => context

/-- `inferTypeContextInFunctionBody`: map the node (or its access/subscript
base) to a parameter; the first inferred type that names a schema type
becomes the context; otherwise fall back to general inference. -/
def inferTypeContextInFunctionBody (t : Tree) (node : NodeData)
    (functionDef : FunctionDefinition) (reg : FunctionRegistryState)
    (loader : SchemaLoaderState) : InferredContext :=
  let viaParam : Option InferredContext :=
    match findParameterVariable t node functionDef with
    | some pv =>
      let inferredTypes := getInferredParameterType reg functionDef.name pv.2
      match inferredTypes with
      | firstName :: _ =>
        match getType loader firstName with
        | some firstType =>
          some (finalizeContextInFunctionBody t
            { type := some firstType, field := none, isArray := false,
              documentTypes := inferredTypes } node loader)
        | none => none
      | [] => none
    | none => none
  match viaParam with
  | some c => c
  | none =>
    let viaAccess : Option InferredContext :=
      match findAncestorOfType t node ["access_expression", "subscript_expression"] with
      | some accessExpr =>
        match getFieldNode t accessExpr "base" with
        | some baseNode =>
          if baseNode.type = "variable" then
            match findParameterByName baseNode.text functionDef with
            | some paramMatch =>
              let inferredTypes := getInferredParameterType reg functionDef.name paramMatch
              match inferredTypes with
              | firstName :: _ =>
                match getType loader firstName with
                | some firstType =>
                  some (finalizeContextInFunctionBody t
                    { type := some firstType, field := none, isArray := false,
                      documentTypes := inferredTypes } node loader)
                | none => none
              | [] => none
            | none => none
          else none
        | none => none
      | none => none
    match viaAccess with
    | some c => c
    | none => inferTypeContext t node loader

/-! ## Type-context resolver (`resolveTypeContext`) -/

/-- `ResolverOptions`. -/
structure ResolverOptions where
  schemaLoader : SchemaLoaderState
  functionRegistry : Option FunctionRegistryState
  source : Option String
  position : Option (Nat × Nat)

/-- Modelled from the spec: `inferTypeFromExplicitFilter` is imported by
`resolveTypeContext` (and by the completion consumer) but its definition is
missing from the source tree.  Per §4.4 strategy 1: "walk ancestors
(through a syntax-tree-correct chain that also understands 'inside a
projection whose base carries the filter') for a `_type == \"X\"`
comparison; if found and `X` names a known document type, that is the
context"; otherwise the strategy yields a context with no resolved type. -/
def inferTypeFromExplicitFilter (t : Tree) (node : NodeData)
    (loader : SchemaLoaderState) : InferredContext :=
  let noCtx : InferredContext :=
    { type := none, field := none, isArray := false, documentTypes := [] }
  match findTypeFilter t node with
  | none => noCtx
  | some comparison =>
    match extractTypeName t comparison with
    | none => noCtx
    | some typeName =>
      match getType loader typeName with
      | some ty =>
        if ty.isDocument then
          { type := some ty, field := none, isArray := false,
            documentTypes := [typeName] }
        else noCtx
      | none => noCtx

/-- Priority 1 of `resolveTypeContext`: the explicit `_type` filter in the
AST; yields a context only when it resolved a type. -/
def strategyExplicit (t : Tree) (node : Option NodeData) (options : ResolverOptions) :
    Option InferredContext :=
  match node with
  | some n =>
    let explicitContext := inferTypeFromExplicitFilter t n options.schemaLoader
    if explicitContext.type.isSome then some explicitContext else none
  | none => none

/-- Priority 2 of `resolveTypeContext`: the text-pattern fallback, guarded
on a (truthy) source and a position being supplied. -/
def strategyText (options : ResolverOptions) : Option InferredContext :=
  match options.source, options.position with
  | some source, some position =>
    if source = "" then none
    else
      let textContext := inferTypeContextFromText source position options.schemaLoader
      if textContext.type.isSome then some textContext else none
  | _, _ => none

/-- Priority 3 of `resolveTypeContext`: the function-body context. -/
def strategyFunctionBody (t : Tree) (node : Option NodeData)
    (options : ResolverOptions) : Option InferredContext :=
  match node, options.functionRegistry with
  | some n, some functionRegistry =>
    match isInsideFunctionBody t functionRegistry n with
    | some funcDef =>
      let funcContext :=
        inferTypeContextInFunctionBody t n funcDef functionRegistry options.schemaLoader
      if funcContext.type.isSome then some funcContext else none
    | none => none
  | _, _ => none

/-- `resolveTypeContext`: the strict priority chain — explicit filter,
text-pattern fallback, function-body context, general inference, then the
null-type fallback. -/
def resolveTypeContext (t : Tree) (node : Option NodeData)
    (options : ResolverOptions) : InferredContext :=
  match strategyExplicit t node options with
  | some c => c
  | none =>
    match strategyText options with
    | some c => c
    | none =>
      match strategyFunctionBody t node options with
      | some c => c
      | none =>
        match node with
        | some n => inferTypeContext t n options.schemaLoader
        | none =>
          { type := none, field := none, isArray := false,
            documentTypes := getDocumentTypeNames options.schemaLoader }

/-! ## Recursion diagnostics (`getDiagnostics.ts`, `validateNoRecursion`) -/

/-- An LSP diagnostic (severity 1 = Error), with the range flattened to
row/column numbers. -/
structure Diagnostic where
  severity : Nat
  startRow : Nat
  startCol : Nat
  endRow : Nat
  endCol : Nat
  message : String
  source : String
deriving Repr, DecidableEq

/-- `validateNoRecursion`: one error diagnostic per `function_call` that
sits inside the body of a function definition of the same name. -/
def validateNoRecursion (t : Tree) (root : NodeData)
    (functionRegistry : FunctionRegistryState) : List Diagnostic :=
  walkTreeFold t
    (fun diagnostics node =>
      if node.type = "function_call" then
        match getFieldNode t node "name" with
        | none => (diagnostics, true)
        | some nameNode =>
          let calledFuncName := nameNode.text
          match isInsideFunctionBody t functionRegistry node with
          | none => (diagnostics, true)
          | some containingFunc =>
            if containingFunc.name = calledFuncName then
              (diagnostics ++
                [{ severity := 1,
                   startRow := nameNode.startRow, startCol := nameNode.startCol,
                   endRow := nameNode.endRow, endCol := nameNode.endCol,
                   message := "Recursive function calls are not supported in GROQ",
                   source := "groq" }], true)
            else (diagnostics, true)
      else (diagnostics, true))
    [] root

/-! # Theorems

The remainder of the file settles the specification claims against the
embedding above. -/

/-! ## Generic lemmas -/

theorem mapGet_mapSet_isSome_inv {α : Type} (m : List (String × α)) (k k' : String)
    (v : α) (h : (mapGet (mapSet m k v) k').isSome) :
    k' = k ∨ (mapGet m k').isSome := by
  by_cases hk : k' = k
  · exact Or.inl hk
  · rw [mapGet_mapSet_ne _ _ _ _ hk] at h
    exact Or.inr h

theorem listLeads_append_self (xs ys : List Char) : listLeads xs (xs ++ ys) = true := by
  induction xs with
  | nil => rfl
  | cons a as ih => simp [listLeads, ih]

/-- A string occurs as a substring of any concatenation around it. -/
theorem containsStr_append (a b c : String) : containsStr (a ++ (b ++ c)) b = true := by
  unfold containsStr
  simp only [List.any_eq_true, List.mem_range]
  refine ⟨a.toList.length, ?_, ?_⟩
  · have : (a ++ (b ++ c)).toList = a.toList ++ (b.toList ++ c.toList) := by
      simp [String.toList, String.data_append]
    simp [this]
    omega
  · have : (a ++ (b ++ c)).toList = a.toList ++ (b.toList ++ c.toList) := by
      simp [String.toList, String.data_append]
    rw [this, List.drop_left]
    exact listLeads_append_self _ _

/-! ## C9 — extension registry registration contract -/

/-- C9: `register` throws exactly when the id is already registered and
otherwise records the extension disabled; `enable` throws exactly when the
id is unregistered and otherwise marks it enabled. -/
theorem extensionRegistry_register_enable_contract :
    (∀ (s : ExtensionRegistryState) (e : Extension),
      (∃ err, ExtensionRegistry.register s e = .error err) ↔
        (mapGet s.extensions e.id).isSome = true) ∧
    (∀ (s : ExtensionRegistryState) (e : Extension) (s' : ExtensionRegistryState),
      ExtensionRegistry.register s e = .ok s' →
        mapGet s'.extensions e.id = some e ∧
        (mapGet s'.configs e.id).map (·.enabled) = some false ∧
        ExtensionRegistry.isEnabled s' e.id = false) ∧
    (∀ (s : ExtensionRegistryState) (i : String) (opts : Option Json),
      (∃ err, ExtensionRegistry.enable s i opts = .error err) ↔
        (mapGet s.extensions i).isSome = false) ∧
    (∀ (s : ExtensionRegistryState) (i : String) (opts : Option Json)
        (s' : ExtensionRegistryState),
      ExtensionRegistry.enable s i opts = .ok s' →
        (mapGet s'.configs i).map (·.enabled) = some true ∧
        ExtensionRegistry.isEnabled s' i = true) := by
  refine ⟨?_, ?_, ?_, ?_⟩
  · intro s e
    by_cases h : (mapGet s.extensions e.id).isSome <;>
      simp [ExtensionRegistry.register, h]
  · intro s e s' h
    by_cases hs : (mapGet s.extensions e.id).isSome
    · simp [ExtensionRegistry.register, hs] at h
    · simp [ExtensionRegistry.register, hs] at h
      subst h
      refine ⟨mapGet_mapSet_self _ _ _, ?_, ?_⟩ <;>
        simp [mapGet_mapSet_self, ExtensionRegistry.isEnabled]
  · intro s i opts
    by_cases h : (mapGet s.extensions i).isSome <;>
      simp [ExtensionRegistry.enable, h]
  · intro s i opts s' h
    by_cases hs : (mapGet s.extensions i).isSome
    · simp [ExtensionRegistry.enable, hs] at h
      subst h
      constructor <;> simp [mapGet_mapSet_self, ExtensionRegistry.isEnabled]
    · simp [ExtensionRegistry.enable, hs] at h

/-- C9 witness: on a concrete registry, registering a fresh id succeeds and
leaves it disabled, re-registering it throws, and enabling it succeeds. -/
theorem extensionRegistry_register_enable_contract_witness :
    (∃ err,
      ExtensionRegistry.register
        ⟨[("a", ⟨"a", []⟩)], [("a", ⟨false, none⟩)]⟩ ⟨"a", []⟩ = .error err) ∧
    (mapGet (⟨[("a", ⟨"a", []⟩)], [("a", ⟨false, none⟩)]⟩ :
        ExtensionRegistryState).extensions "a" = some ⟨"a", []⟩) ∧
    (ExtensionRegistry.isEnabled
      ⟨[("a", ⟨"a", []⟩)], [("a", ⟨true, none⟩)]⟩ "a" = true) := by
  refine ⟨?_, by rfl, by rfl⟩
  exact (extensionRegistry_register_enable_contract.1
    ⟨[("a", ⟨"a", []⟩)], [("a", ⟨false, none⟩)]⟩ ⟨"a", []⟩).mpr (by rfl)

/-! ## C10 — `loadFromObject` bypasses validation and the cache -/

theorem foldl_resolveTypes_preserves (l : List SchemaType)
    (init : List (String × ResolvedType)) (k : String)
    (h : (mapGet init k).isSome) :
    (mapGet (l.foldl (fun m t => mapSet m t.name (resolveType t)) init) k).isSome := by
  induction l generalizing init with
  | nil => exact h
  | cons t ts ih => exact ih _ (mapGet_mapSet_isSome _ _ _ _ h)

theorem foldl_resolveTypes_isSome (l : List SchemaType)
    (init : List (String × ResolvedType)) (st : SchemaType) (h : st ∈ l) :
    (mapGet (l.foldl (fun m t => mapSet m t.name (resolveType t)) init) st.name).isSome := by
  induction l generalizing init with
  | nil => cases h
  | cons t ts ih =>
    rcases List.mem_cons.mp h with h1 | h2
    · subst h1
      exact foldl_resolveTypes_preserves ts _ _
        (by rw [mapGet_mapSet_self]; rfl)
    · exact ih _ h2

/-- C10: `loadFromObject` installs the schema with no validation and no
cache interaction — its result's resolved types are a pure function of the
schema alone (independent of the validation configuration, which it never
consults; it takes no filesystem or cache arguments at all), `isLoaded`
becomes true, and every entry of `schema.types` is retrievable through
`getType`. -/
theorem loadFromObject_no_validation :
    ∀ (s : SchemaLoaderState) (schema : SanitySchema),
      isLoaded (loadFromObject s schema) = true ∧
      (loadFromObject s schema).resolvedTypes = resolveTypes (some schema) ∧
      (∀ cfg : SchemaValidationConfig,
        loadFromObject { s with validationConfig := cfg } schema
          = { loadFromObject s schema with validationConfig := cfg }) ∧
      (∀ st ∈ schema.types, (getType (loadFromObject s schema) st.name).isSome = true) := by
  intro s schema
  refine ⟨rfl, rfl, fun cfg => rfl, ?_⟩
  intro st hst
  exact foldl_resolveTypes_isSome schema.types [] st hst

/-! ## C4 — built-in field injection -/

theorem resolveType_builtin_fields (st : SchemaType) (h : isDocumentType st = true) :
    mapGet (resolveType st).fields "_id" = some (builtinField "_id" "string") ∧
    mapGet (resolveType st).fields "_type" = some (builtinField "_type" "string") ∧
    mapGet (resolveType st).fields "_createdAt" = some (builtinField "_createdAt" "datetime") ∧
    mapGet (resolveType st).fields "_updatedAt" = some (builtinField "_updatedAt" "datetime") ∧
    mapGet (resolveType st).fields "_rev" = some (builtinField "_rev" "string") := by
  have hfields : (resolveType st).fields =
      mapSet (mapSet (mapSet (mapSet (mapSet (resolveUserFields st)
        "_id" (builtinField "_id" "string"))
        "_type" (builtinField "_type" "string"))
        "_createdAt" (builtinField "_createdAt" "datetime"))
        "_updatedAt" (builtinField "_updatedAt" "datetime"))
        "_rev" (builtinField "_rev" "string") := by
    simp [resolveType, h]
  rw [hfields]
  refine ⟨?_, ?_, ?_, ?_, ?_⟩
  · rw [mapGet_mapSet_ne _ _ _ _ (by decide), mapGet_mapSet_ne _ _ _ _ (by decide),
      mapGet_mapSet_ne _ _ _ _ (by decide), mapGet_mapSet_ne _ _ _ _ (by decide),
      mapGet_mapSet_self]
  · rw [mapGet_mapSet_ne _ _ _ _ (by decide), mapGet_mapSet_ne _ _ _ _ (by decide),
      mapGet_mapSet_ne _ _ _ _ (by decide), mapGet_mapSet_self]
  · rw [mapGet_mapSet_ne _ _ _ _ (by decide), mapGet_mapSet_ne _ _ _ _ (by decide),
      mapGet_mapSet_self]
  · rw [mapGet_mapSet_ne _ _ _ _ (by decide), mapGet_mapSet_self]
  · rw [mapGet_mapSet_self]

theorem resolveType_isDocument (st : SchemaType) :
    (resolveType st).isDocument = isDocumentType st := by
  simp [resolveType]

theorem foldl_resolveTypes_values (l : List SchemaType)
    (init : List (String × ResolvedType))
    (hinit : ∀ k x, mapGet init k = some x → ∃ st, x = resolveType st) :
    ∀ k x, mapGet (l.foldl (fun m t => mapSet m t.name (resolveType t)) init) k = some x →
      ∃ st, x = resolveType st := by
  induction l generalizing init with
  | nil => exact hinit
  | cons t ts ih =>
    exact ih _ (fun k => mapGet_mapSet_forall _ _ _ _ (hinit k) ⟨t, rfl⟩)

theorem resolveTypes_values (schema : Option SanitySchema) (tn : String)
    (rt : ResolvedType) (h : mapGet (resolveTypes schema) tn = some rt) :
    ∃ st, rt = resolveType st := by
  cases schema with
  | none => simp [resolveTypes, mapGet] at h
  | some s =>
    exact foldl_resolveTypes_values s.types []
      (fun k x hx => by simp [mapGet] at hx) tn rt h

theorem foldl_attr_keys (entries : List (String × Json))
    (init : List (String × ResolvedField)) (fn : String)
    (h : (mapGet (entries.foldl (fun m kv =>
        if jsStr (kv.2.getKey "type") = "objectAttribute" then
          mapSet m kv.1 (resolveGroqAttribute kv.1 kv.2)
        else m) init) fn).isSome) :
    entries.any (fun kv =>
        kv.1 = fn && jsStr (kv.2.getKey "type") = "objectAttribute") = true ∨
      (mapGet init fn).isSome = true := by
  induction entries generalizing init with
  | nil => exact Or.inr h
  | cons kv rest ih =>
    rcases ih _ h with hrest | hstep
    · exact Or.inl (by simp [List.any_cons, hrest])
    · simp only at hstep
      by_cases hcond : jsStr (kv.2.getKey "type") = "objectAttribute"
      · rw [if_pos hcond] at hstep
        rcases mapGet_mapSet_isSome_inv _ _ _ _ hstep with heq | hinit
        · exact Or.inl (by simp [List.any_cons, heq.symm, hcond])
        · exact Or.inr hinit
      · rw [if_neg hcond] at hstep
        exact Or.inr hstep

/-- C4 (amended): built-in fields are injected only by the Sanity-shape
resolution — every resolved document type reached through `resolveTypes`
(used by `loadFromObject` and the Sanity branch of `loadFromPath`) carries
the five built-in fields with their documented primitive types, and they
are retrievable via `getField`; the compiled-query-type (GROQ) shape
injects nothing — each of its resolved types' fields stems from an
`objectAttribute` entry of the raw input. -/
theorem builtin_fields_sanity_shape_only :
    (∀ (schema : Option SanitySchema) (tn : String) (rt : ResolvedType),
      mapGet (resolveTypes schema) tn = some rt → rt.isDocument = true →
      mapGet rt.fields "_id" = some (builtinField "_id" "string") ∧
      mapGet rt.fields "_type" = some (builtinField "_type" "string") ∧
      mapGet rt.fields "_createdAt" = some (builtinField "_createdAt" "datetime") ∧
      mapGet rt.fields "_updatedAt" = some (builtinField "_updatedAt" "datetime") ∧
      mapGet rt.fields "_rev" = some (builtinField "_rev" "string")) ∧
    (∀ (s : SchemaLoaderState) (schema : SanitySchema) (tn : String) (rt : ResolvedType),
      getType (loadFromObject s schema) tn = some rt → rt.isDocument = true →
      getField (loadFromObject s schema) tn "_id" = some (builtinField "_id" "string") ∧
      getField (loadFromObject s schema) tn "_rev" = some (builtinField "_rev" "string")) ∧
    (∀ (raw : Json) (rt : ResolvedType) (fn : String),
      resolveGroqType raw = some rt → (mapGet rt.fields fn).isSome = true →
      (((groqAttributesOf raw).getD Json.null).entriesOf).any
        (fun kv => kv.1 = fn && jsStr (kv.2.getKey "type") = "objectAttribute") = true) := by
  have main : ∀ (schema : Option SanitySchema) (tn : String) (rt : ResolvedType),
      mapGet (resolveTypes schema) tn = some rt → rt.isDocument = true →
      mapGet rt.fields "_id" = some (builtinField "_id" "string") ∧
      mapGet rt.fields "_type" = some (builtinField "_type" "string") ∧
      mapGet rt.fields "_createdAt" = some (builtinField "_createdAt" "datetime") ∧
      mapGet rt.fields "_updatedAt" = some (builtinField "_updatedAt" "datetime") ∧
      mapGet rt.fields "_rev" = some (builtinField "_rev" "string") := by
    intro schema tn rt h hdoc
    obtain ⟨st, rfl⟩ := resolveTypes_values schema tn rt h
    rw [resolveType_isDocument] at hdoc
    exact resolveType_builtin_fields st hdoc
  refine ⟨main, ?_, ?_⟩
  · intro s schema tn rt h hdoc
    have h' : mapGet (resolveTypes (some schema)) tn = some rt := h
    have := main (some schema) tn rt h' hdoc
    unfold getField
    rw [show getType (loadFromObject s schema) tn = some rt from h]
    exact ⟨this.1, this.2.2.2.2⟩
  · intro raw rt fn h hf
    unfold resolveGroqType at h
    cases hattrs : groqAttributesOf raw with
    | none =>
      rw [hattrs] at h
      simp only [Option.some.injEq] at h
      subst h
      simp [mapGet] at hf
    | some a =>
      rw [hattrs] at h
      simp only [Option.some.injEq] at h
      subst h
      simp only at hf
      rcases foldl_attr_keys a.entriesOf [] fn hf with hk | hbad
      · simpa [hattrs] using hk
      · simp [mapGet] at hbad

/-- C4 counterexample input: a compiled-query-type (GROQ) shape schema with
one document type and no attributes. -/
def groqRawC4 : Json :=
  .arr [.obj [("name", .str "post"), ("type", .str "document"),
              ("attributes", .obj [])]]

/-- C4 counterexample filesystem. -/
def fsC4 : FileSys := [("s.json", .file "rawC4" (some groqRawC4))]

/-- C4 counterexample load. -/
def loadC4 : SchemaLoaderState × CacheSys × Bool :=
  loadFromPath
    (SchemaLoader.mk { DEFAULT_VALIDATION_CONFIG with cacheValidation := false })
    fsC4 [] "s.json"

/-- C4 counterexample: a GROQ-shape schema loads successfully, its resolved
type is flagged as a document, yet none of the five built-in fields is
present — refuting "in either accepted raw shape, every resolved document
type contains the five built-in fields". -/
theorem builtin_fields_counterexample :
    loadC4.2.2 = true ∧
    (getType loadC4.1 "post").map (·.isDocument) = some true ∧
    getField loadC4.1 "post" "_id" = none ∧
    getField loadC4.1 "post" "_type" = none ∧
    getField loadC4.1 "post" "_createdAt" = none ∧
    getField loadC4.1 "post" "_updatedAt" = none ∧
    getField loadC4.1 "post" "_rev" = none := by
  decide

/-- C4 witness: the Sanity-shape conjunct evaluated on a concrete one-type
schema. -/
theorem builtin_fields_sanity_shape_only_witness :
    mapGet ((resolveType ⟨"post", "document", none, none⟩).fields) "_id"
      = some (builtinField "_id" "string") :=
  (builtin_fields_sanity_shape_only.1 (some ⟨[⟨"post", "document", none, none⟩]⟩)
    "post" (resolveType ⟨"post", "document", none, none⟩) (by rfl) (by rfl)).1

/-! ## Shared load-failure lemma -/

/-- When the file reads and parses, validation is enabled, the cache
misses, and validation fails, `loadFromPath` returns false, records the
validation error, and clears the schema state. -/
theorem loadFromPath_validation_fail
    (s : SchemaLoaderState) (fs : FileSys) (cache : CacheSys) (p content : String)
    (j : Json) (h : fs.stat p = .file content (some j))
    (henabled : s.validationConfig.enabled = true)
    (hmiss : readValidationCache cache (getCachePath p) (computeHash content)
      (computeConfigHash s.validationConfig) = none)
    (hinvalid : (validateSchema s.validationConfig j).valid = false) :
    (loadFromPath s fs cache p).2.2 = false ∧
    getLastValidationError (loadFromPath s fs cache p).1 =
      some ((validateSchema s.validationConfig j).error.getD "Schema validation failed") ∧
    isLoaded (loadFromPath s fs cache p).1 = false ∧
    (∀ tn, getType (loadFromPath s fs cache p).1 tn = none) := by
  have hload : loadFromPath s fs cache p =
      (failValidation { s with lastValidationError := none }
        ((validateSchema s.validationConfig j).error.getD "Schema validation failed"),
       (if s.validationConfig.cacheValidation then
          writeValidationCache cache (getCachePath p) (computeHash content)
            (computeConfigHash s.validationConfig) (validateSchema s.validationConfig j)
        else cache),
       false) := by
    simp only [loadFromPath, h, henabled, if_true]
    have hcached :
        (if s.validationConfig.cacheValidation then
          readValidationCache cache (getCachePath p) (computeHash content)
            (computeConfigHash s.validationConfig)
        else none) = none := by
      cases hc : s.validationConfig.cacheValidation <;> simp [hmiss]
    rw [hcached]
    simp [hinvalid]
  rw [hload]
  exact ⟨rfl, rfl, rfl, fun tn => rfl⟩

/-! ## C3 — load-failure handling -/

/-- C3 counterexample loader: a loader that already holds a schema. -/
def loaderC3 : SchemaLoaderState :=
  loadFromObject (SchemaLoader.mk DEFAULT_VALIDATION_CONFIG)
    ⟨[⟨"post", "document", none, none⟩]⟩

/-- C3 counterexample load of a missing path. -/
def loadC3 : SchemaLoaderState × CacheSys × Bool :=
  loadFromPath loaderC3 [] [] "missing.json"

/-- C3 counterexample: loading a missing path returns false but leaves the
previously loaded schema fully in place (`isLoaded` still true, prior type
still retrievable) and records no retrievable cause — refuting "the
previously loaded schema state is cleared … and the human-readable cause
is retrievable". -/
theorem loadFromPath_missing_counterexample :
    loadC3.2.2 = false ∧
    isLoaded loadC3.1 = true ∧
    (getType loadC3.1 "post").isSome = true ∧
    getLastValidationError loadC3.1 = none := by
  decide

/-- C3 (amended): `loadFromPath` is total and returns false on a missing
file, an unreadable file, a JSON parse failure, or a validation failure;
only the validation failure records a retrievable cause and clears the
schema state; read/parse failures clear the state but record no cause; a
missing file leaves the previous schema state untouched and records no
cause. -/
theorem loadFromPath_failure_contract :
    ∀ (s : SchemaLoaderState) (fs : FileSys) (cache : CacheSys) (p : String),
      (fs.stat p = .absent →
        loadFromPath s fs cache p = ({ s with lastValidationError := none }, cache, false)) ∧
      (fs.stat p = .unreadable →
        loadFromPath s fs cache p =
          (clearOnCatch { s with lastValidationError := none }, cache, false) ∧
        isLoaded (loadFromPath s fs cache p).1 = false ∧
        getLastValidationError (loadFromPath s fs cache p).1 = none) ∧
      (∀ content, fs.stat p = .file content none →
        loadFromPath s fs cache p =
          (clearOnCatch { s with lastValidationError := none }, cache, false) ∧
        isLoaded (loadFromPath s fs cache p).1 = false ∧
        getLastValidationError (loadFromPath s fs cache p).1 = none) ∧
      (∀ content j, fs.stat p = .file content (some j) →
        s.validationConfig.enabled = true →
        readValidationCache cache (getCachePath p) (computeHash content)
          (computeConfigHash s.validationConfig) = none →
        (validateSchema s.validationConfig j).valid = false →
        (loadFromPath s fs cache p).2.2 = false ∧
        getLastValidationError (loadFromPath s fs cache p).1 =
          some ((validateSchema s.validationConfig j).error.getD "Schema validation failed") ∧
        isLoaded (loadFromPath s fs cache p).1 = false ∧
        (∀ tn, getType (loadFromPath s fs cache p).1 tn = none)) := by
  intro s fs cache p
  refine ⟨?_, ?_, ?_, ?_⟩
  · intro h
    simp [loadFromPath, h]
  · intro h
    refine ⟨by simp [loadFromPath, h], ?_, ?_⟩ <;>
      simp [loadFromPath, h, clearOnCatch, isLoaded, getLastValidationError]
  · intro content h
    refine ⟨by simp [loadFromPath, h], ?_, ?_⟩ <;>
      simp [loadFromPath, h, clearOnCatch, isLoaded, getLastValidationError]
  · intro content j h henabled hmiss hinvalid
    exact loadFromPath_validation_fail s fs cache p content j h henabled hmiss hinvalid

/-- C3 amended-claim witness: the validation-failure case on a concrete
invalid (wrong-shape) schema file — load fails, the cause is retrievable,
and the state is cleared. -/
theorem loadFromPath_failure_contract_witness :
    (loadFromPath (SchemaLoader.mk DEFAULT_VALIDATION_CONFIG)
        [("bad.json", .file "x" (some (Json.str "nope")))] [] "bad.json").2.2 = false ∧
    getLastValidationError (loadFromPath (SchemaLoader.mk DEFAULT_VALIDATION_CONFIG)
        [("bad.json", .file "x" (some (Json.str "nope")))] [] "bad.json").1 =
      some "Schema does not match expected Sanity or GROQ type schema format" ∧
    isLoaded (loadFromPath (SchemaLoader.mk DEFAULT_VALIDATION_CONFIG)
        [("bad.json", .file "x" (some (Json.str "nope")))] [] "bad.json").1 = false := by
  have h := (loadFromPath_failure_contract (SchemaLoader.mk DEFAULT_VALIDATION_CONFIG)
      [("bad.json", .file "x" (some (Json.str "nope")))] [] "bad.json").2.2.2
      "x" (Json.str "nope") (by rfl) (by rfl) (by rfl) (by rfl)
  exact ⟨h.1, h.2.1, h.2.2.1⟩

/-- C10 witness: loading a one-type schema object on a fresh loader (with
validation enabled in the configuration) succeeds and exposes the type. -/
theorem loadFromObject_no_validation_witness :
    isLoaded (loadFromObject (SchemaLoader.mk DEFAULT_VALIDATION_CONFIG)
      ⟨[⟨"post", "document", none, none⟩]⟩) = true ∧
    (getType (loadFromObject (SchemaLoader.mk DEFAULT_VALIDATION_CONFIG)
      ⟨[⟨"post", "document", none, none⟩]⟩) "post").isSome = true :=
  ⟨(loadFromObject_no_validation (SchemaLoader.mk DEFAULT_VALIDATION_CONFIG)
      ⟨[⟨"post", "document", none, none⟩]⟩).1,
   (loadFromObject_no_validation (SchemaLoader.mk DEFAULT_VALIDATION_CONFIG)
      ⟨[⟨"post", "document", none, none⟩]⟩).2.2.2
     ⟨"post", "document", none, none⟩ (by simp)⟩

/-! ## C5 — size/depth limit messages -/

/-- Induction principle for the nested `Json` inductive. -/
theorem json_ind {motive : Json → Prop}
    (hnull : motive .null) (hbool : ∀ b, motive (.bool b))
    (hnum : ∀ n, motive (.num n)) (hstr : ∀ s, motive (.str s))
    (harr : ∀ xs, (∀ x ∈ xs, motive x) → motive (.arr xs))
    (hobj : ∀ kvs, (∀ p ∈ kvs, motive p.2) → motive (.obj kvs)) :
    ∀ v, motive v
  | .null => hnull
  | .bool b => hbool b
  | .num n => hnum n
  | .str s => hstr s
  | .arr xs =>
    harr xs (fun x hx =>
      have : sizeOf x < 1 + sizeOf xs := by
        have := List.sizeOf_lt_of_mem hx
        omega
      json_ind hnull hbool hnum hstr harr hobj x)
  | .obj kvs =>
    hobj kvs (fun p hp =>
      have : sizeOf p.2 < 1 + sizeOf kvs := by
        have h1 := List.sizeOf_lt_of_mem hp
        have h2 : sizeOf p.2 ≤ sizeOf p := by
          rcases p with ⟨a, b⟩
          simp only [Prod.mk.sizeOf_spec]
          omega
        omega
      json_ind hnull hbool hnum hstr harr hobj p.2)
termination_by v => sizeOf v

theorem checkDepthItems_shape (m : Nat) (xs : List Json) (d : Nat)
    (ih : ∀ x ∈ xs, ∀ d',
      checkDepth m x d' = { valid := true, error := none } ∨
      checkDepth m x d' = { valid := false, error := some (depthMsg m) }) :
    checkDepthItems m xs d = { valid := true, error := none } ∨
    checkDepthItems m xs d = { valid := false, error := some (depthMsg m) } := by
  induction xs with
  | nil => exact Or.inl rfl
  | cons x rest ihr =>
    rcases ih x (by simp) d with h | h
    · have := ihr (fun y hy d' => ih y (by simp [hy]) d')
      simpa [checkDepthItems, h] using this
    · exact Or.inr (by simp [checkDepthItems, h])

theorem checkDepthProps_shape (m : Nat) (kvs : List (String × Json)) (d : Nat)
    (ih : ∀ p ∈ kvs, ∀ d',
      checkDepth m p.2 d' = { valid := true, error := none } ∨
      checkDepth m p.2 d' = { valid := false, error := some (depthMsg m) }) :
    checkDepthProps m kvs d = { valid := true, error := none } ∨
    checkDepthProps m kvs d = { valid := false, error := some (depthMsg m) } := by
  induction kvs with
  | nil => exact Or.inl rfl
  | cons p rest ihr =>
    rcases ih p (by simp) d with h | h
    · have := ihr (fun q hq d' => ih q (by simp [hq]) d')
      simpa [checkDepthProps, h] using this
    · exact Or.inr (by simp [checkDepthProps, h])

/-- `checkDepth` either succeeds or fails with the fixed depth message. -/
theorem checkDepth_shape (m : Nat) (v : Json) : ∀ (d : Nat),
    checkDepth m v d = { valid := true, error := none } ∨
    checkDepth m v d = { valid := false, error := some (depthMsg m) } := by
  induction v using json_ind with
  | hnull => intro d; by_cases h : d > m <;> simp [checkDepth, h]
  | hbool b => intro d; by_cases h : d > m <;> simp [checkDepth, h]
  | hnum n => intro d; by_cases h : d > m <;> simp [checkDepth, h]
  | hstr s => intro d; by_cases h : d > m <;> simp [checkDepth, h]
  | harr xs ih =>
    intro d
    by_cases h : d > m
    · simp [checkDepth, h]
    · have := checkDepthItems_shape m xs (d + 1) ih
      simpa [checkDepth, h] using this
  | hobj kvs ih =>
    intro d
    by_cases h : d > m
    · simp [checkDepth, h]
    · have := checkDepthProps_shape m kvs (d + 1) ih
      simpa [checkDepth, h] using this

/-- A Sanity-shape type entry that passes every per-type structural check. -/
def sanityTypeClean (cfg : SchemaValidationConfig) (t : Json) : Bool :=
  match t.getKey "name" with
  | some (.str name) =>
    if name.length = 0 then false
    else
      match t.getKey "type" with
      | some (.str _) =>
        if jsTruthy (t.getKey "fields") then
          match t.getKey "fields" with
          | some (.arr fs) =>
            decide (fs.length ≤ cfg.maxFieldsPerType) &&
              (validateSanityFieldsLoop name fs).isNone
          | _ => false
        else true
      | _ => false
  | _ => false

/-- A GROQ-shape type entry that passes every per-type structural check. -/
def groqTypeClean (cfg : SchemaValidationConfig) (t : Json) : Bool :=
  match t.getKey "name" with
  | some (.str name) =>
    if name.length = 0 then false
    else
      match t.getKey "type" with
      | some (.str _) =>
        if jsTruthy (groqAttributesOf t) then
          decide ((((groqAttributesOf t).getD Json.null).entriesOf).length
            ≤ cfg.maxFieldsPerType)
        else true
      | _ => false
  | _ => false

theorem validateSanityTypesLoop_clean_cons (cfg : SchemaValidationConfig) (x : Json)
    (rest : List Json) (h : sanityTypeClean cfg x = true) :
    validateSanityTypesLoop cfg (x :: rest) = validateSanityTypesLoop cfg rest := by
  unfold sanityTypeClean at h
  cases hk : x.getKey "name" with
  | none => rw [hk] at h; simp at h
  | some v =>
    rw [hk] at h
    cases v with
    | str name =>
      simp only at h
      by_cases hlen : name.length = 0
      · rw [if_pos hlen] at h; simp at h
      · rw [if_neg hlen] at h
        cases hty : x.getKey "type" with
        | none => rw [hty] at h; simp at h
        | some tv =>
          rw [hty] at h
          cases tv with
          | str sty =>
            simp only at h
            by_cases htr : jsTruthy (x.getKey "fields") = true
            · rw [if_pos htr] at h
              cases hfld : x.getKey "fields" with
              | none => rw [hfld] at htr; simp [jsTruthy] at htr
              | some fv =>
                rw [hfld] at h
                cases fv with
                | arr fs =>
                  simp only [Bool.and_eq_true, decide_eq_true_eq,
                    Option.isNone_iff_eq_none] at h
                  simp [validateSanityTypesLoop, hk, hlen, hty, htr, hfld,
                    Nat.not_lt.mpr h.1, h.2]
                | null => simp at h
                | bool b => simp at h
                | num n => simp at h
                | str s2 => simp at h
                | obj kvs => simp at h
            · rw [if_neg htr] at h
              simp [validateSanityTypesLoop, hk, hlen, hty, htr]
          | null => simp at h
          | bool b => simp at h
          | num n => simp at h
          | arr xs => simp at h
          | obj kvs => simp at h
    | null => simp at h
    | bool b => simp at h
    | num n => simp at h
    | arr xs => simp at h
    | obj kvs => simp at h

theorem validateSanityTypesLoop_clean_append (cfg : SchemaValidationConfig)
    (pre rest : List Json) (h : ∀ x ∈ pre, sanityTypeClean cfg x = true) :
    validateSanityTypesLoop cfg (pre ++ rest) = validateSanityTypesLoop cfg rest := by
  induction pre with
  | nil => rfl
  | cons x xs ih =>
    rw [List.cons_append,
      validateSanityTypesLoop_clean_cons cfg x _ (h x (by simp)),
      ih (fun y hy => h y (by simp [hy]))]

theorem validateSanityTypesLoop_fieldCount (cfg : SchemaValidationConfig) (t : Json)
    (rest : List Json) (name : String) (fsJ : List Json)
    (hn : t.getKey "name" = some (.str name)) (hne : ¬ name.length = 0)
    (hty : ∃ sty, t.getKey "type" = some (.str sty))
    (hf : t.getKey "fields" = some (.arr fsJ))
    (hcount : cfg.maxFieldsPerType < fsJ.length) :
    validateSanityTypesLoop cfg (t :: rest) =
      { valid := false, error := some (fieldCountMsg name fsJ.length cfg.maxFieldsPerType) } := by
  obtain ⟨sty, hty⟩ := hty
  simp [validateSanityTypesLoop, hn, hne, hty, hf, jsTruthy, hcount]

theorem validateGroqTypesLoop_clean_cons (cfg : SchemaValidationConfig) (x : Json)
    (rest : List Json) (h : groqTypeClean cfg x = true) :
    validateGroqTypesLoop cfg (x :: rest) = validateGroqTypesLoop cfg rest := by
  unfold groqTypeClean at h
  cases hk : x.getKey "name" with
  | none => rw [hk] at h; simp at h
  | some v =>
    rw [hk] at h
    cases v with
    | str name =>
      simp only at h
      by_cases hlen : name.length = 0
      · rw [if_pos hlen] at h; simp at h
      · rw [if_neg hlen] at h
        cases hty : x.getKey "type" with
        | none => rw [hty] at h; simp at h
        | some tv =>
          rw [hty] at h
          cases tv with
          | str sty =>
            simp only at h
            by_cases htr : jsTruthy (groqAttributesOf x) = true
            · rw [if_pos htr] at h
              simp only [decide_eq_true_eq] at h
              simp [validateGroqTypesLoop, hk, hlen, hty, htr, Nat.not_lt.mpr h]
            · rw [if_neg htr] at h
              simp [validateGroqTypesLoop, hk, hlen, hty, htr]
          | null => simp at h
          | bool b => simp at h
          | num n => simp at h
          | arr xs => simp at h
          | obj kvs => simp at h
    | null => simp at h
    | bool b => simp at h
    | num n => simp at h
    | arr xs => simp at h
    | obj kvs => simp at h

theorem validateGroqTypesLoop_clean_append (cfg : SchemaValidationConfig)
    (pre rest : List Json) (h : ∀ x ∈ pre, groqTypeClean cfg x = true) :
    validateGroqTypesLoop cfg (pre ++ rest) = validateGroqTypesLoop cfg rest := by
  induction pre with
  | nil => rfl
  | cons x xs ih =>
    rw [List.cons_append,
      validateGroqTypesLoop_clean_cons cfg x _ (h x (by simp)),
      ih (fun y hy => h y (by simp [hy]))]

theorem validateGroqTypesLoop_fieldCount (cfg : SchemaValidationConfig) (t : Json)
    (rest : List Json) (name : String)
    (hn : t.getKey "name" = some (.str name)) (hne : ¬ name.length = 0)
    (hty : ∃ sty, t.getKey "type" = some (.str sty))
    (htr : jsTruthy (groqAttributesOf t) = true)
    (hcount : cfg.maxFieldsPerType
      < (((groqAttributesOf t).getD Json.null).entriesOf).length) :
    validateGroqTypesLoop cfg (t :: rest) =
      { valid := false,
        error := some (fieldCountMsg name
          ((((groqAttributesOf t).getD Json.null).entriesOf).length)
          cfg.maxFieldsPerType) } := by
  obtain ⟨sty, hty⟩ := hty
  simp [validateGroqTypesLoop, hn, hne, hty, htr, hcount]

theorem validateSchema_of_structure_fail (cfg : SchemaValidationConfig) (j : Json)
    (msg : String) (hdepth : (checkDepth cfg.maxDepth j 0).valid = true)
    (hs : validateStructure cfg j = { valid := false, error := some msg }) :
    validateSchema cfg j = { valid := false, error := some msg } := by
  simp [validateSchema, hdepth, hs]

theorem validateStructure_sanity (cfg : SchemaValidationConfig) (j : Json)
    (hgroq : isGroqTypeSchema j = false) (hsan : isSanitySchema j = true) :
    validateStructure cfg j = validateSanitySchemaStructure cfg j := by
  simp [validateStructure, hgroq, hsan]

theorem validateStructure_groq (cfg : SchemaValidationConfig) (j : Json)
    (hgroq : isGroqTypeSchema j = true) :
    validateStructure cfg j = validateGroqTypeSchemaStructure cfg j := by
  simp [validateStructure, hgroq]

theorem strAppend_assoc (a b c : String) : a ++ b ++ c = a ++ (b ++ c) := by
  apply congrArg String.mk
  show (a ++ b ++ c).data = (a ++ (b ++ c)).data
  simp [String.data_append, List.append_assoc]

theorem strAppend_empty (a : String) : a ++ "" = a := by
  apply congrArg String.mk
  show (a ++ "").data = a.data
  simp [String.data_append]

theorem containsStr_right (a b : String) : containsStr (a ++ b) b = true := by
  have h := containsStr_append a b ""
  rwa [strAppend_empty b] at h

theorem strEmpty_append (a : String) : "" ++ a = a := by
  apply congrArg String.mk
  show ("" ++ a).data = a.data
  simp [String.data_append]

theorem containsStr_mono_left (a s b : String) (h : containsStr s b = true) :
    containsStr (a ++ s) b = true := by
  unfold containsStr at h ⊢
  simp only [List.any_eq_true, List.mem_range] at h ⊢
  obtain ⟨i, hi, hlead⟩ := h
  have hdata : (a ++ s).toList = a.toList ++ s.toList := by
    simp [String.toList, String.data_append]
  refine ⟨a.toList.length + i, ?_, ?_⟩
  · rw [hdata, List.length_append]
    omega
  · rw [hdata, List.drop_append]
    exact hlead

theorem containsStr_depthMsg (m : Nat) :
    containsStr (depthMsg m) (toString m) = true := by
  unfold depthMsg
  exact containsStr_right _ _

theorem containsStr_typeCountMsg (n m : Nat) :
    containsStr (typeCountMsg n m) (toString n) = true ∧
    containsStr (typeCountMsg n m) (toString m) = true := by
  unfold typeCountMsg
  refine ⟨?_, containsStr_right _ _⟩
  simp only [strAppend_assoc]
  exact containsStr_append _ _ _

theorem containsStr_fieldCountMsg (name : String) (n m : Nat) :
    containsStr (fieldCountMsg name n m) name = true ∧
    containsStr (fieldCountMsg name n m) (toString n) = true ∧
    containsStr (fieldCountMsg name n m) (toString m) = true := by
  unfold fieldCountMsg
  refine ⟨?_, ?_, containsStr_right _ _⟩
  · simp only [strAppend_assoc]
    exact containsStr_append _ _ _
  · simp only [strAppend_assoc]
    exact containsStr_mono_left _ _ _ (containsStr_mono_left _ _ _
      (containsStr_append _ _ _))

/-- C5 (amended): with validation enabled and no matching cache record, a
type count over `maxTypes` (in either shape, depth check passing) fails the
load with a message carrying both the offending count and the limit, and so
does the first type whose field/attribute count exceeds
`maxFieldsPerType`; but a schema exceeding `maxDepth` fails with a message
carrying only the configured limit — the offending depth does not appear
(see the counterexample). -/
theorem validation_limit_error_messages :
    ∀ (s : SchemaLoaderState) (fs : FileSys) (cache : CacheSys) (p content : String)
      (j : Json),
      fs.stat p = .file content (some j) →
      s.validationConfig.enabled = true →
      readValidationCache cache (getCachePath p) (computeHash content)
        (computeConfigHash s.validationConfig) = none →
      (((checkDepth s.validationConfig.maxDepth j 0).valid = false →
        (loadFromPath s fs cache p).2.2 = false ∧
        getLastValidationError (loadFromPath s fs cache p).1 =
          some (depthMsg s.validationConfig.maxDepth) ∧
        containsStr (depthMsg s.validationConfig.maxDepth)
          (toString s.validationConfig.maxDepth) = true)) ∧
      (∀ ts : List Json,
        (checkDepth s.validationConfig.maxDepth j 0).valid = true →
        isGroqTypeSchema j = false → isSanitySchema j = true →
        j.getKey "types" = some (.arr ts) →
        s.validationConfig.maxTypes < ts.length →
        (loadFromPath s fs cache p).2.2 = false ∧
        getLastValidationError (loadFromPath s fs cache p).1 =
          some (typeCountMsg ts.length s.validationConfig.maxTypes) ∧
        containsStr (typeCountMsg ts.length s.validationConfig.maxTypes)
          (toString ts.length) = true ∧
        containsStr (typeCountMsg ts.length s.validationConfig.maxTypes)
          (toString s.validationConfig.maxTypes) = true) ∧
      ((checkDepth s.validationConfig.maxDepth j 0).valid = true →
        isGroqTypeSchema j = true →
        s.validationConfig.maxTypes < (groqTypesOf j).length →
        (loadFromPath s fs cache p).2.2 = false ∧
        getLastValidationError (loadFromPath s fs cache p).1 =
          some (typeCountMsg (groqTypesOf j).length s.validationConfig.maxTypes) ∧
        containsStr (typeCountMsg (groqTypesOf j).length s.validationConfig.maxTypes)
          (toString (groqTypesOf j).length) = true ∧
        containsStr (typeCountMsg (groqTypesOf j).length s.validationConfig.maxTypes)
          (toString s.validationConfig.maxTypes) = true) ∧
      (∀ (pre : List Json) (t : Json) (rest : List Json) (name : String)
          (fsJ : List Json),
        (checkDepth s.validationConfig.maxDepth j 0).valid = true →
        isGroqTypeSchema j = false → isSanitySchema j = true →
        j.getKey "types" = some (.arr (pre ++ t :: rest)) →
        (pre ++ t :: rest).length ≤ s.validationConfig.maxTypes →
        (∀ x ∈ pre, sanityTypeClean s.validationConfig x = true) →
        t.getKey "name" = some (.str name) → ¬ name.length = 0 →
        (∃ sty, t.getKey "type" = some (.str sty)) →
        t.getKey "fields" = some (.arr fsJ) →
        s.validationConfig.maxFieldsPerType < fsJ.length →
        (loadFromPath s fs cache p).2.2 = false ∧
        getLastValidationError (loadFromPath s fs cache p).1 =
          some (fieldCountMsg name fsJ.length s.validationConfig.maxFieldsPerType) ∧
        containsStr (fieldCountMsg name fsJ.length s.validationConfig.maxFieldsPerType)
          name = true ∧
        containsStr (fieldCountMsg name fsJ.length s.validationConfig.maxFieldsPerType)
          (toString fsJ.length) = true ∧
        containsStr (fieldCountMsg name fsJ.length s.validationConfig.maxFieldsPerType)
          (toString s.validationConfig.maxFieldsPerType) = true) ∧
      (∀ (pre : List Json) (t : Json) (rest : List Json) (name : String),
        (checkDepth s.validationConfig.maxDepth j 0).valid = true →
        isGroqTypeSchema j = true →
        groqTypesOf j = pre ++ t :: rest →
        (pre ++ t :: rest).length ≤ s.validationConfig.maxTypes →
        (∀ x ∈ pre, groqTypeClean s.validationConfig x = true) →
        t.getKey "name" = some (.str name) → ¬ name.length = 0 →
        (∃ sty, t.getKey "type" = some (.str sty)) →
        jsTruthy (groqAttributesOf t) = true →
        s.validationConfig.maxFieldsPerType
          < (((groqAttributesOf t).getD Json.null).entriesOf).length →
        (loadFromPath s fs cache p).2.2 = false ∧
        getLastValidationError (loadFromPath s fs cache p).1 =
          some (fieldCountMsg name
            ((((groqAttributesOf t).getD Json.null).entriesOf).length)
            s.validationConfig.maxFieldsPerType)) := by
  intro s fs cache p content j hfile henabled hmiss
  have core : ∀ msg : String,
      validateSchema s.validationConfig j = { valid := false, error := some msg } →
      (loadFromPath s fs cache p).2.2 = false ∧
      getLastValidationError (loadFromPath s fs cache p).1 = some msg := by
    intro msg hval
    have h := loadFromPath_validation_fail s fs cache p content j hfile henabled hmiss
      (by rw [hval])
    rw [hval] at h
    exact ⟨h.1, h.2.1⟩
  refine ⟨?_, ?_, ?_, ?_, ?_⟩
  · intro hbad
    rcases checkDepth_shape s.validationConfig.maxDepth j 0 with hok | hd
    · rw [hok] at hbad; simp at hbad
    · have hval : validateSchema s.validationConfig j =
          { valid := false, error := some (depthMsg s.validationConfig.maxDepth) } := by
        simp [validateSchema, hd]
      exact ⟨(core _ hval).1, (core _ hval).2, containsStr_depthMsg _⟩
  · intro ts hdok hgroq hsan hts hcount
    have hstruct : validateSanitySchemaStructure s.validationConfig j =
        { valid := false,
          error := some (typeCountMsg ts.length s.validationConfig.maxTypes) } := by
      simp [validateSanitySchemaStructure, hts, hcount]
    have hval := validateSchema_of_structure_fail s.validationConfig j _ hdok
      ((validateStructure_sanity s.validationConfig j hgroq hsan).trans hstruct)
    exact ⟨(core _ hval).1, (core _ hval).2, (containsStr_typeCountMsg _ _).1,
      (containsStr_typeCountMsg _ _).2⟩
  · intro hdok hgroq hcount
    have hstruct : validateGroqTypeSchemaStructure s.validationConfig j =
        { valid := false,
          error := some (typeCountMsg (groqTypesOf j).length s.validationConfig.maxTypes) } := by
      simp [validateGroqTypeSchemaStructure, hcount]
    have hval := validateSchema_of_structure_fail s.validationConfig j _ hdok
      ((validateStructure_groq s.validationConfig j hgroq).trans hstruct)
    exact ⟨(core _ hval).1, (core _ hval).2, (containsStr_typeCountMsg _ _).1,
      (containsStr_typeCountMsg _ _).2⟩
  · intro pre t rest name fsJ hdok hgroq hsan hts hlen hpre hn hne hty hf hcount
    have hloop : validateSanityTypesLoop s.validationConfig (pre ++ t :: rest) =
        { valid := false,
          error := some (fieldCountMsg name fsJ.length s.validationConfig.maxFieldsPerType) } :=
      (validateSanityTypesLoop_clean_append s.validationConfig pre (t :: rest) hpre).trans
        (validateSanityTypesLoop_fieldCount s.validationConfig t rest name fsJ hn hne hty hf hcount)
    have hstruct : validateSanitySchemaStructure s.validationConfig j =
        { valid := false,
          error := some (fieldCountMsg name fsJ.length s.validationConfig.maxFieldsPerType) } := by
      rw [validateSanitySchemaStructure, hts]
      simp only [Nat.not_lt.mpr hlen, if_neg (by omega : ¬ s.validationConfig.maxTypes
        < (pre ++ t :: rest).length)]
      exact hloop
    have hval := validateSchema_of_structure_fail s.validationConfig j _ hdok
      ((validateStructure_sanity s.validationConfig j hgroq hsan).trans hstruct)
    exact ⟨(core _ hval).1, (core _ hval).2, (containsStr_fieldCountMsg _ _ _).1,
      (containsStr_fieldCountMsg _ _ _).2.1, (containsStr_fieldCountMsg _ _ _).2.2⟩
  · intro pre t rest name hdok hgroq htypes hlen hpre hn hne hty htr hcount
    have hloop : validateGroqTypesLoop s.validationConfig (pre ++ t :: rest) =
        { valid := false,
          error := some (fieldCountMsg name
            ((((groqAttributesOf t).getD Json.null).entriesOf).length)
            s.validationConfig.maxFieldsPerType) } :=
      (validateGroqTypesLoop_clean_append s.validationConfig pre (t :: rest) hpre).trans
        (validateGroqTypesLoop_fieldCount s.validationConfig t rest name hn hne hty htr hcount)
    have hstruct : validateGroqTypeSchemaStructure s.validationConfig j =
        { valid := false,
          error := some (fieldCountMsg name
            ((((groqAttributesOf t).getD Json.null).entriesOf).length)
            s.validationConfig.maxFieldsPerType) } := by
      rw [validateGroqTypeSchemaStructure, htypes]
      simp only [if_neg (by omega : ¬ s.validationConfig.maxTypes
        < (pre ++ t :: rest).length)]
      exact hloop
    have hval := validateSchema_of_structure_fail s.validationConfig j _ hdok
      ((validateStructure_groq s.validationConfig j hgroq).trans hstruct)
    exact ⟨(core _ hval).1, (core _ hval).2⟩

/-- C5 counterexample config: `maxDepth = 1`, validation on, caching off. -/
def cfgC5 : SchemaValidationConfig :=
  { enabled := true, maxDepth := 1, maxTypes := 10000,
    maxFieldsPerType := 1000, cacheValidation := false }

/-- C5 counterexample schema: nesting depth 3. -/
def deepJsonC5 : Json := .arr [.arr [.arr [.str "x"]]]

/-- C5 counterexample load. -/
def loadC5 : SchemaLoaderState × CacheSys × Bool :=
  loadFromPath (SchemaLoader.mk cfgC5)
    [("d.json", .file "deep" (some deepJsonC5))] [] "d.json"

/-- C5 counterexample: a depth-3 schema under `maxDepth = 1` fails to load
with "Schema exceeds maximum nesting depth of 1" — a message that carries
the limit but not the offending count (neither "2" nor "3" nor "4" occurs
in it), refuting "the error message contains both the offending count and
the configured limit" for the depth case. -/
theorem depth_error_lacks_count_counterexample :
    loadC5.2.2 = false ∧
    getLastValidationError loadC5.1 = some "Schema exceeds maximum nesting depth of 1" ∧
    containsStr "Schema exceeds maximum nesting depth of 1" "2" = false ∧
    containsStr "Schema exceeds maximum nesting depth of 1" "3" = false ∧
    containsStr "Schema exceeds maximum nesting depth of 1" "4" = false := by
  decide

/-- C5 witness config: `maxTypes = 1`. -/
def cfgC5w : SchemaValidationConfig :=
  { enabled := true, maxDepth := 50, maxTypes := 1,
    maxFieldsPerType := 1000, cacheValidation := false }

/-- C5 witness schema: two document types. -/
def jsonC5w : Json :=
  .obj [("types", .arr
    [.obj [("name", .str "a"), ("type", .str "document")],
     .obj [("name", .str "b"), ("type", .str "document")]])]

/-- C5 witness filesystem. -/
def fsC5w : FileSys := [("two.json", .file "two" (some jsonC5w))]

/-- C5 amended-claim witness: the type-count conjunct on a concrete
two-type schema with `maxTypes = 1` — the message carries the count and the
limit. -/
theorem validation_limit_error_messages_witness :
    (loadFromPath (SchemaLoader.mk cfgC5w) fsC5w [] "two.json").2.2 = false ∧
    containsStr (typeCountMsg 2 1) (toString 2) = true ∧
    containsStr (typeCountMsg 2 1) (toString 1) = true := by
  have h := (validation_limit_error_messages
      (SchemaLoader.mk cfgC5w) fsC5w [] "two.json" "two" jsonC5w
      (by rfl) (by rfl) (by rfl)).2.1
      [.obj [("name", .str "a"), ("type", .str "document")],
       .obj [("name", .str "b"), ("type", .str "document")]]
      (by decide) (by decide) (by decide) (by rfl) (by decide)
  exact ⟨h.1, h.2.2.1, h.2.2.2⟩

/-! ## C6 — validation-cache behaviour -/

theorem resolveTypesFromRaw_validationConfig (s : SchemaLoaderState) (raw : Json) :
    (resolveTypesFromRaw s raw).validationConfig = s.validationConfig := by
  unfold resolveTypesFromRaw
  split <;> try rfl
  split <;> rfl

theorem installSchema_validationConfig (s : SchemaLoaderState) (parsed : Json)
    (p : String) :
    (installSchema s parsed p).validationConfig = s.validationConfig := by
  unfold installSchema
  rw [resolveTypesFromRaw_validationConfig]

/-- The boolean outcome of `loadFromPath` as a function of the
configuration, the file state, the cache, and the path. -/
def loadVerdict (cfg : SchemaValidationConfig) (st : FileState) (cache : CacheSys)
    (p : String) : Bool :=
  match st with
  | .absent => false
  | .unreadable => false
  | .file content parsed =>
    match parsed with
    | none => false
    | some j =>
      if cfg.enabled then
        match (if cfg.cacheValidation then
            readValidationCache cache (getCachePath p) (computeHash content)
              (computeConfigHash cfg)
          else none) with
        | some cr => cr.valid
        | none => (validateSchema cfg j).valid
      else true

/-- The cache directory after `loadFromPath`, as a function of the same
data. -/
def loadCacheOut (cfg : SchemaValidationConfig) (st : FileState) (cache : CacheSys)
    (p : String) : CacheSys :=
  match st with
  | .absent => cache
  | .unreadable => cache
  | .file content parsed =>
    match parsed with
    | none => cache
    | some j =>
      if cfg.enabled then
        match (if cfg.cacheValidation then
            readValidationCache cache (getCachePath p) (computeHash content)
              (computeConfigHash cfg)
          else none) with
        | some _ => cache
        | none =>
          if cfg.cacheValidation then
            writeValidationCache cache (getCachePath p) (computeHash content)
              (computeConfigHash cfg) (validateSchema cfg j)
          else cache
      else cache

theorem loadFromPath_proj (s : SchemaLoaderState) (fs : FileSys) (cache : CacheSys)
    (p : String) :
    (loadFromPath s fs cache p).1.validationConfig = s.validationConfig ∧
    (loadFromPath s fs cache p).2.2 = loadVerdict s.validationConfig (fs.stat p) cache p ∧
    (loadFromPath s fs cache p).2.1 = loadCacheOut s.validationConfig (fs.stat p) cache p := by
  cases hstat : fs.stat p with
  | absent =>
    refine ⟨?_, ?_, ?_⟩ <;> simp [loadFromPath, loadVerdict, loadCacheOut, hstat]
  | unreadable =>
    refine ⟨?_, ?_, ?_⟩ <;>
      simp [loadFromPath, loadVerdict, loadCacheOut, hstat, clearOnCatch]
  | file content parsed =>
    cases parsed with
    | none =>
      refine ⟨?_, ?_, ?_⟩ <;>
        simp [loadFromPath, loadVerdict, loadCacheOut, hstat, clearOnCatch]
    | some j =>
      cases henb : s.validationConfig.enabled with
      | false =>
        refine ⟨?_, ?_, ?_⟩ <;>
          simp [loadFromPath, loadVerdict, loadCacheOut, hstat, henb,
            installSchema_validationConfig]
      | true =>
        cases hcvb : s.validationConfig.cacheValidation with
        | false =>
          cases hvb : (validateSchema s.validationConfig j).valid <;>
            refine ⟨?_, ?_, ?_⟩ <;>
              simp [loadFromPath, loadVerdict, loadCacheOut, hstat, henb, hcvb, hvb,
                failValidation, installSchema_validationConfig]
        | true =>
          cases hR : readValidationCache cache (getCachePath p) (computeHash content)
              (computeConfigHash s.validationConfig) with
          | some cr =>
            cases hcrv : cr.valid <;>
              refine ⟨?_, ?_, ?_⟩ <;>
                simp [loadFromPath, loadVerdict, loadCacheOut, hstat, henb, hcvb, hR, hcrv,
                  failValidation, installSchema_validationConfig]
          | none =>
            cases hvb : (validateSchema s.validationConfig j).valid <;>
              refine ⟨?_, ?_, ?_⟩ <;>
                simp [loadFromPath, loadVerdict, loadCacheOut, hstat, henb, hcvb, hR, hvb,
                  failValidation, installSchema_validationConfig]

theorem readValidationCache_write (cache : CacheSys) (cp h ch : String)
    (v : SchemaValidationResult) :
    readValidationCache (writeValidationCache cache cp h ch v) cp h ch =
      some { valid := v.valid, error := v.error } := by
  unfold readValidationCache writeValidationCache CacheSys.stat
  rw [mapGet_mapSet_self]
  simp [CACHE_VERSION]

/-- Reloading under the same configuration and an unchanged file reads the
same verdict: the cache written by the first load (or already present)
reproduces it. -/
theorem loadVerdict_stable (cfg : SchemaValidationConfig) (st : FileState)
    (cache : CacheSys) (p : String) :
    loadVerdict cfg st (loadCacheOut cfg st cache p) p = loadVerdict cfg st cache p := by
  unfold loadVerdict loadCacheOut
  cases st with
  | absent => rfl
  | unreadable => rfl
  | file content parsed =>
    cases parsed with
    | none => rfl
    | some j =>
      by_cases hen : cfg.enabled
      · simp only [hen, if_true]
        by_cases hcv : cfg.cacheValidation
        · simp only [hcv, if_true]
          cases hR : readValidationCache cache (getCachePath p) (computeHash content)
              (computeConfigHash cfg) with
          | some cr => simp [hR]
          | none => simp [hR, hcv, readValidationCache_write]
        · simp [hcv]
      · simp [hen]

/-- C6: (1) loading the same unchanged path twice yields the same boolean
result; (2) the cache read yields a verdict exactly when the record's
version, schema hash and config hash all match (absence, corruption and
mismatch are misses, never errors); (3) a cached validation failure is
reported with the cached error string suffixed with " (cached)", which
contains "cached"; (4) the config hash is computed over
`maxDepth`/`maxTypes`/`maxFieldsPerType` only. -/
theorem validation_cache_behaviour :
    (∀ (s : SchemaLoaderState) (fs : FileSys) (cache : CacheSys) (p : String),
      (loadFromPath (loadFromPath s fs cache p).1 fs (loadFromPath s fs cache p).2.1 p).2.2
        = (loadFromPath s fs cache p).2.2) ∧
    (∀ (cache : CacheSys) (cp h ch : String) (r : SchemaValidationResult),
      readValidationCache cache cp h ch = some r ↔
        ∃ e, cache.stat cp = .entry e ∧ e.version = CACHE_VERSION ∧
          e.schemaHash = h ∧ e.configHash = ch ∧
          r = { valid := e.valid, error := e.error }) ∧
    (∀ (cache : CacheSys) (cp h ch : String),
      cache.stat cp = .corrupt → readValidationCache cache cp h ch = none) ∧
    (∀ (s : SchemaLoaderState) (fs : FileSys) (cache : CacheSys)
        (p content : String) (j : Json) (e : String),
      fs.stat p = .file content (some j) →
      s.validationConfig.enabled = true →
      s.validationConfig.cacheValidation = true →
      readValidationCache cache (getCachePath p) (computeHash content)
        (computeConfigHash s.validationConfig) = some { valid := false, error := some e } →
      (loadFromPath s fs cache p).2.2 = false ∧
      getLastValidationError (loadFromPath s fs cache p).1 = some (e ++ " (cached)") ∧
      containsStr (e ++ " (cached)") "cached" = true) ∧
    (∀ c1 c2 : SchemaValidationConfig,
      c1.maxDepth = c2.maxDepth → c1.maxTypes = c2.maxTypes →
      c1.maxFieldsPerType = c2.maxFieldsPerType →
      computeConfigHash c1 = computeConfigHash c2) := by
  refine ⟨?_, ?_, ?_, ?_, ?_⟩
  · intro s fs cache p
    have h1 := loadFromPath_proj s fs cache p
    have h2 := loadFromPath_proj (loadFromPath s fs cache p).1 fs
      (loadFromPath s fs cache p).2.1 p
    rw [h2.2.1, h1.1, h1.2.2, loadVerdict_stable, h1.2.1]
  · intro cache cp h ch r
    unfold readValidationCache
    cases hstat : cache.stat cp with
    | absent => simp
    | corrupt => simp
    | entry e =>
      show (if e.version = CACHE_VERSION ∧ e.schemaHash = h ∧ e.configHash = ch then
          some { valid := e.valid, error := e.error }
        else none) = some r ↔ _
      by_cases hcond : e.version = CACHE_VERSION ∧ e.schemaHash = h ∧ e.configHash = ch
      · rw [if_pos hcond]
        simp only [Option.some.injEq]
        constructor
        · intro hr
          exact ⟨e, rfl, hcond.1, hcond.2.1, hcond.2.2, hr.symm⟩
        · rintro ⟨e', he', _, _, _, hr⟩
          injection he' with he2
          subst he2
          exact hr.symm
      · rw [if_neg hcond]
        constructor
        · intro hr
          exact absurd hr (by simp)
        · rintro ⟨e', he', hv, hs2, hc2, _⟩
          injection he' with he2
          subst he2
          exact absurd ⟨hv, hs2, hc2⟩ hcond
  · intro cache cp h ch hstat
    unfold readValidationCache
    rw [hstat]
  · intro s fs cache p content j e hstat hen hcv hread
    have hload : loadFromPath s fs cache p =
        (failValidation { s with lastValidationError := none } (e ++ " (cached)"),
         cache, false) := by
      simp only [loadFromPath, hstat, hen, if_true, hcv, hread]
      rfl
    rw [hload]
    refine ⟨rfl, rfl, ?_⟩
    exact containsStr_mono_left e " (cached)" "cached" (by decide)
  · intro c1 c2 h1 h2 h3
    unfold computeConfigHash
    rw [h1, h2, h3]

/-- C6 witness: a concrete invalid one-entry cache record is reused on a
matching read and reported as cached. -/
theorem validation_cache_behaviour_witness :
    (loadFromPath (SchemaLoader.mk DEFAULT_VALIDATION_CONFIG)
      [("c.json", .file "body" (some (Json.obj [("types", Json.arr [])])))]
      [(getCachePath "c.json", .entry
        { version := 1, schemaHash := computeHash "body",
          configHash := computeConfigHash DEFAULT_VALIDATION_CONFIG,
          valid := false, error := some "bad schema" })]
      "c.json").2.2 = false ∧
    getLastValidationError (loadFromPath (SchemaLoader.mk DEFAULT_VALIDATION_CONFIG)
      [("c.json", .file "body" (some (Json.obj [("types", Json.arr [])])))]
      [(getCachePath "c.json", .entry
        { version := 1, schemaHash := computeHash "body",
          configHash := computeConfigHash DEFAULT_VALIDATION_CONFIG,
          valid := false, error := some "bad schema" })]
      "c.json").1 = some ("bad schema" ++ " (cached)") ∧
    containsStr ("bad schema" ++ " (cached)") "cached" = true := by
  exact (validation_cache_behaviour.2.2.2.1
    (SchemaLoader.mk DEFAULT_VALIDATION_CONFIG)
    [("c.json", .file "body" (some (Json.obj [("types", Json.arr [])])))]
    [(getCachePath "c.json", .entry
      { version := 1, schemaHash := computeHash "body",
        configHash := computeConfigHash DEFAULT_VALIDATION_CONFIG,
        valid := false, error := some "bad schema" })]
    "c.json" "body" (Json.obj [("types", Json.arr [])]) "bad schema"
    (by rfl) (by rfl) (by rfl) (by rfl))

/-! ## C7 — direct-only recursion detection -/

/-- Root of the tree for `fn r($x) = r($x)`. -/
def rootA : NodeData :=
  { id := 0, type := "source_file", text := "fn r($x) = r($x)", startIndex := 0,
    startRow := 0, startCol := 0, endRow := 0, endCol := 16,
    parent := none, children := [1], namedChildren := [1], fields := [] }

/-- Tree for `fn r($x) = r($x)` (a direct self-call in the body). -/
def treeA : Tree :=
  [rootA,
   { id := 1, type := "function_definition", text := "fn r($x) = r($x)",
     startIndex := 0, startRow := 0, startCol := 0, endRow := 0, endCol := 16,
     parent := some 0, children := [2, 3, 4], namedChildren := [2, 3, 4],
     fields := [("name", 2), ("body", 4)] },
   { id := 2, type := "identifier", text := "r", startIndex := 3,
     startRow := 0, startCol := 3, endRow := 0, endCol := 4,
     parent := some 1, children := [], namedChildren := [], fields := [] },
   { id := 3, type := "parameter_list", text := "($x)", startIndex := 4,
     startRow := 0, startCol := 4, endRow := 0, endCol := 8,
     parent := some 1, children := [5], namedChildren := [5], fields := [] },
   { id := 5, type := "variable", text := "$x", startIndex := 5,
     startRow := 0, startCol := 5, endRow := 0, endCol := 7,
     parent := some 3, children := [], namedChildren := [], fields := [] },
   { id := 4, type := "function_call", text := "r($x)", startIndex := 11,
     startRow := 0, startCol := 11, endRow := 0, endCol := 16,
     parent := some 1, children := [6, 7], namedChildren := [6, 7],
     fields := [("name", 6)] },
   { id := 6, type := "identifier", text := "r", startIndex := 11,
     startRow := 0, startCol := 11, endRow := 0, endCol := 12,
     parent := some 4, children := [], namedChildren := [], fields := [] },
   { id := 7, type := "variable", text := "$x", startIndex := 13,
     startRow := 0, startCol := 13, endRow := 0, endCol := 15,
     parent := some 4, children := [], namedChildren := [], fields := [] }]

/-- Root of the tree for `fn a($x) = b($x)` with `fn b($x) = $x`. -/
def rootB : NodeData :=
  { id := 0, type := "source_file", text := "fn a($x) = b($x)\nfn b($x) = $x",
    startIndex := 0, startRow := 0, startCol := 0, endRow := 1, endCol := 13,
    parent := none, children := [1, 8], namedChildren := [1, 8], fields := [] }

/-- Tree for `fn a($x) = b($x)` and `fn b($x) = $x` (a calls b; no direct
self-call anywhere). -/
def treeB : Tree :=
  [rootB,
   { id := 1, type := "function_definition", text := "fn a($x) = b($x)",
     startIndex := 0, startRow := 0, startCol := 0, endRow := 0, endCol := 16,
     parent := some 0, children := [2, 3, 4], namedChildren := [2, 3, 4],
     fields := [("name", 2), ("body", 4)] },
   { id := 2, type := "identifier", text := "a", startIndex := 3,
     startRow := 0, startCol := 3, endRow := 0, endCol := 4,
     parent := some 1, children := [], namedChildren := [], fields := [] },
   { id := 3, type := "parameter_list", text := "($x)", startIndex := 4,
     startRow := 0, startCol := 4, endRow := 0, endCol := 8,
     parent := some 1, children := [5], namedChildren := [5], fields := [] },
   { id := 5, type := "variable", text := "$x", startIndex := 5,
     startRow := 0, startCol := 5, endRow := 0, endCol := 7,
     parent := some 3, children := [], namedChildren := [], fields := [] },
   { id := 4, type := "function_call", text := "b($x)", startIndex := 11,
     startRow := 0, startCol := 11, endRow := 0, endCol := 16,
     parent := some 1, children := [6, 7], namedChildren := [6, 7],
     fields := [("name", 6)] },
   { id := 6, type := "identifier", text := "b", startIndex := 11,
     startRow := 0, startCol := 11, endRow := 0, endCol := 12,
     parent := some 4, children := [], namedChildren := [], fields := [] },
   { id := 7, type := "variable", text := "$x", startIndex := 13,
     startRow := 0, startCol := 13, endRow := 0, endCol := 15,
     parent := some 4, children := [], namedChildren := [], fields := [] },
   { id := 8, type := "function_definition", text := "fn b($x) = $x",
     startIndex := 17, startRow := 1, startCol := 0, endRow := 1, endCol := 13,
     parent := some 0, children := [9, 10, 11], namedChildren := [9, 10, 11],
     fields := [("name", 9), ("body", 11)] },
   { id := 9, type := "identifier", text := "b", startIndex := 20,
     startRow := 1, startCol := 3, endRow := 1, endCol := 4,
     parent := some 8, children := [], namedChildren := [], fields := [] },
   { id := 10, type := "parameter_list", text := "($x)", startIndex := 21,
     startRow := 1, startCol := 4, endRow := 1, endCol := 8,
     parent := some 8, children := [12], namedChildren := [12], fields := [] },
   { id := 12, type := "variable", text := "$x", startIndex := 22,
     startRow := 1, startCol := 5, endRow := 1, endCol := 7,
     parent := some 10, children := [], namedChildren := [], fields := [] },
   { id := 11, type := "variable", text := "$x", startIndex := 28,
     startRow := 1, startCol := 11, endRow := 1, endCol := 13,
     parent := some 8, children := [], namedChildren := [], fields := [] }]

/-- C7: on `fn r($x) = r($x)` the recursion validator produces exactly one
error diagnostic (at the self-call's name node), while `fn a($x) = b($x)`
with `fn b($x) = $x` produces none; extraction completes normally in both
cases (the definitions and the call sites are registered). -/
theorem recursion_detection_direct_only :
    validateNoRecursion treeA rootA (extractFromAST treeA rootA none "") =
      [{ severity := 1, startRow := 0, startCol := 11, endRow := 0, endCol := 12,
         message := "Recursive function calls are not supported in GROQ",
         source := "groq" }] ∧
    hasDefinition (extractFromAST treeA rootA none "") "r" = true ∧
    (getCallSites (extractFromAST treeA rootA none "") "r").length = 1 ∧
    validateNoRecursion treeB rootB (extractFromAST treeB rootB none "") = [] ∧
    hasDefinition (extractFromAST treeB rootB none "") "a" = true ∧
    hasDefinition (extractFromAST treeB rootB none "") "b" = true ∧
    (getCallSites (extractFromAST treeB rootB none "") "b").length = 1 := by
  decide

/-! ## C8 — graceful degradation of the resolver -/

theorem finalizeContext_type (t : Tree) (c : InferredContext) (n : NodeData)
    (l : SchemaLoaderState) : (finalizeContext t c n l).type = c.type := by
  simp only [finalizeContext]
  repeat' split
  all_goals rfl

theorem finalizeContext_documentTypes (t : Tree) (c : InferredContext) (n : NodeData)
    (l : SchemaLoaderState) :
    (finalizeContext t c n l).documentTypes = c.documentTypes := by
  simp only [finalizeContext]
  repeat' split
  all_goals rfl

theorem finalizeContext_field_of_type_none (t : Tree) (c : InferredContext)
    (n : NodeData) (l : SchemaLoaderState) (hc : c.type = none) :
    (finalizeContext t c n l).field = c.field := by
  simp only [finalizeContext, hc]
  repeat' split
  all_goals simp_all

/-- Degenerate leaves of `finalizeContext`: a null-typed context with a
null field and the document-type fallback passes through unchanged in the
spots the claim cares about. -/
theorem finalizeContext_null (t : Tree) (n : NodeData) (l : SchemaLoaderState)
    (c : InferredContext) (hc : c.type = none) (hf : c.field = none)
    (hd : c.documentTypes = getDocumentTypeNames l) :
    (finalizeContext t c n l).field = none ∧
    (finalizeContext t c n l).documentTypes = getDocumentTypeNames l :=
  ⟨(finalizeContext_field_of_type_none t c n l hc).trans hf,
   (finalizeContext_documentTypes t c n l).trans hd⟩

theorem ictx_eq_nested (t : Tree) (n : NodeData) (l : SchemaLoaderState)
    (nft : ResolvedType) (h1 : inferNestedFieldType t n l = some nft) :
    inferTypeContext t n l =
      finalizeContext t
        { type := some nft, field := none, isArray := false,
          documentTypes := [nft.name] } n l := by
  unfold inferTypeContext
  simp only [h1]

theorem ictx_eq_array (t : Tree) (n : NodeData) (l : SchemaLoaderState)
    (aft : ResolvedType) (h1 : inferNestedFieldType t n l = none)
    (h2 : inferArrayFieldType t n l = some aft) :
    inferTypeContext t n l =
      finalizeContext t
        { type := some aft, field := none, isArray := true,
          documentTypes := [aft.name] } n l := by
  unfold inferTypeContext
  simp only [h1, h2]

theorem ictx_eq_nofilter (t : Tree) (n : NodeData) (l : SchemaLoaderState)
    (h1 : inferNestedFieldType t n l = none) (h2 : inferArrayFieldType t n l = none)
    (h3 : findTypeFilter t n = none) :
    inferTypeContext t n l =
      finalizeContext t
        { type := none, field := none, isArray := false,
          documentTypes := getDocumentTypeNames l } n l := by
  unfold inferTypeContext
  simp only [h1, h2, h3]

theorem ictx_eq_noname (t : Tree) (n : NodeData) (l : SchemaLoaderState)
    (tf : NodeData) (h1 : inferNestedFieldType t n l = none)
    (h2 : inferArrayFieldType t n l = none) (h3 : findTypeFilter t n = some tf)
    (h4 : extractTypeName t tf = none) :
    inferTypeContext t n l =
      finalizeContext t
        { type := none, field := none, isArray := false,
          documentTypes := getDocumentTypeNames l } n l := by
  unfold inferTypeContext
  simp only [h1, h2, h3, h4]

theorem ictx_eq_notype (t : Tree) (n : NodeData) (l : SchemaLoaderState)
    (tf : NodeData) (tn : String) (h1 : inferNestedFieldType t n l = none)
    (h2 : inferArrayFieldType t n l = none) (h3 : findTypeFilter t n = some tf)
    (h4 : extractTypeName t tf = some tn) (h5 : getType l tn = none) :
    inferTypeContext t n l =
      finalizeContext t
        { type := none, field := none, isArray := false,
          documentTypes := getDocumentTypeNames l } n l := by
  unfold inferTypeContext
  simp only [h1, h2, h3, h4, h5]

theorem ictx_eq_filter (t : Tree) (n : NodeData) (l : SchemaLoaderState)
    (tf : NodeData) (tn : String) (ty : ResolvedType)
    (h1 : inferNestedFieldType t n l = none)
    (h2 : inferArrayFieldType t n l = none) (h3 : findTypeFilter t n = some tf)
    (h4 : extractTypeName t tf = some tn) (h5 : getType l tn = some ty) :
    inferTypeContext t n l =
      finalizeContext t
        { type := some ty, field := none, isArray := false,
          documentTypes := [tn] } n l := by
  unfold inferTypeContext
  simp only [h1, h2, h3, h4, h5]

/-- When general structural inference pins no type, it also pins no field
and reports the full document-type list. -/
theorem inferTypeContext_degrades (t : Tree) (n : NodeData) (l : SchemaLoaderState)
    (h : (inferTypeContext t n l).type = none) :
    (inferTypeContext t n l).field = none ∧
    (inferTypeContext t n l).documentTypes = getDocumentTypeNames l := by
  cases h1 : inferNestedFieldType t n l with
  | some nft =>
    rw [ictx_eq_nested t n l nft h1, finalizeContext_type] at h
    simp at h
  | none =>
    cases h2 : inferArrayFieldType t n l with
    | some aft =>
      rw [ictx_eq_array t n l aft h1 h2, finalizeContext_type] at h
      simp at h
    | none =>
      cases h3 : findTypeFilter t n with
      | none =>
        rw [ictx_eq_nofilter t n l h1 h2 h3]
        exact finalizeContext_null t n l _ rfl rfl rfl
      | some tf =>
        cases h4 : extractTypeName t tf with
        | none =>
          rw [ictx_eq_noname t n l tf h1 h2 h3 h4]
          exact finalizeContext_null t n l _ rfl rfl rfl
        | some tn =>
          cases h5 : getType l tn with
          | none =>
            rw [ictx_eq_notype t n l tf tn h1 h2 h3 h4 h5]
            exact finalizeContext_null t n l _ rfl rfl rfl
          | some ty =>
            rw [ictx_eq_filter t n l tf tn ty h1 h2 h3 h4 h5,
              finalizeContext_type] at h
            simp at h

/-- The explicit-filter strategy only yields contexts with a resolved type. -/
theorem strategyExplicit_type_isSome (t : Tree) (node : Option NodeData)
    (o : ResolverOptions) (c : InferredContext)
    (h : strategyExplicit t node o = some c) : c.type.isSome = true := by
  unfold strategyExplicit at h
  cases node with
  | none => simp at h
  | some n =>
    by_cases hs : (inferTypeFromExplicitFilter t n o.schemaLoader).type.isSome
    · simp only [hs, if_true] at h
      simp only [Option.some.injEq] at h
      rw [← h]
      exact hs
    · simp [hs] at h

/-- The text-pattern strategy only yields contexts with a resolved type. -/
theorem strategyText_type_isSome (o : ResolverOptions) (c : InferredContext)
    (h : strategyText o = some c) : c.type.isSome = true := by
  unfold strategyText at h
  cases hs : o.source with
  | none => rw [hs] at h; simp at h
  | some src =>
    cases hp : o.position with
    | none => rw [hs, hp] at h; simp at h
    | some pos =>
      rw [hs, hp] at h
      by_cases he : src = ""
      · simp [he] at h
      · by_cases hs2 : (inferTypeContextFromText src pos o.schemaLoader).type.isSome
        · simp only [he, if_false, hs2, if_true] at h
          simp only [Option.some.injEq] at h
          rw [← h]
          exact hs2
        · simp [he, hs2] at h

/-- The function-body strategy only yields contexts with a resolved type. -/
theorem strategyFunctionBody_type_isSome (t : Tree) (node : Option NodeData)
    (o : ResolverOptions) (c : InferredContext)
    (h : strategyFunctionBody t node o = some c) : c.type.isSome = true := by
  unfold strategyFunctionBody at h
  cases node with
  | none => simp at h
  | some n =>
    cases hr : o.functionRegistry with
    | none => simp [hr] at h
    | some reg =>
      simp only [hr] at h
      cases hd : isInsideFunctionBody t reg n with
      | none => simp [hd] at h
      | some fd =>
        simp only [hd] at h
        by_cases hs2 : (inferTypeContextInFunctionBody t n fd reg o.schemaLoader).type.isSome
        · simp only [hs2, if_true] at h
          simp only [Option.some.injEq] at h
          rw [← h]
          exact hs2
        · simp [hs2] at h

/-- C8: type-context resolution is total (the embedding is a total
function) and degrades gracefully: whenever the resolved context carries a
null type — for any node, including null, and any schema loader state —
its field is null too and its `documentTypes` is the full (possibly empty)
list of known document type names. -/
theorem resolver_graceful_degradation :
    ∀ (t : Tree) (node : Option NodeData) (options : ResolverOptions),
      (resolveTypeContext t node options).type = none →
      (resolveTypeContext t node options).field = none ∧
      (resolveTypeContext t node options).documentTypes =
        getDocumentTypeNames options.schemaLoader := by
  intro t node options
  unfold resolveTypeContext
  cases hp1 : strategyExplicit t node options with
  | some c =>
    intro h
    have h' : c.type = none := h
    have hs := strategyExplicit_type_isSome t node options c hp1
    rw [h'] at hs
    simp at hs
  | none =>
    cases hp2 : strategyText options with
    | some c =>
      intro h
      have h' : c.type = none := h
      have hs := strategyText_type_isSome options c hp2
      rw [h'] at hs
      simp at hs
    | none =>
      cases hp3 : strategyFunctionBody t node options with
      | some c =>
        intro h
        have h' : c.type = none := h
        have hs := strategyFunctionBody_type_isSome t node options c hp3
        rw [h'] at hs
        simp at hs
      | none =>
        cases node with
        | some n =>
          intro h
          exact inferTypeContext_degrades t n options.schemaLoader h
        | none =>
          intro _
          exact ⟨rfl, rfl⟩

/-- A resolver-options record with no schema loaded and no auxiliary
inputs. -/
def optsC8 : ResolverOptions :=
  { schemaLoader := SchemaLoader.mk DEFAULT_VALIDATION_CONFIG,
    functionRegistry := none, source := none, position := none }

theorem resolver_graceful_degradation_witness :
    (resolveTypeContext [] none optsC8).field = none ∧
    (resolveTypeContext [] none optsC8).documentTypes = [] := by
  have h := resolver_graceful_degradation [] none optsC8 (by rfl)
  exact ⟨h.1, h.2.trans (by rfl)⟩

/-! ## C1 — strict strategy priority in `resolveTypeContext` -/

/-- C1: the resolver is a strict priority chain — the explicit-filter
strategy wins outright; the text-pattern strategy is consulted only when
the explicit strategy yields nothing; the function-body strategy only when
both earlier ones yield nothing; general structural inference only when
all three yield nothing — and in particular any query whose AST carries an
explicit `_type == "X"` filter with `X` a known document type resolves to
`X` outright, whatever the other strategies would say. -/
theorem resolver_priority_chain :
    ∀ (t : Tree) (node : Option NodeData) (options : ResolverOptions),
      (∀ c, strategyExplicit t node options = some c →
        resolveTypeContext t node options = c) ∧
      (strategyExplicit t node options = none →
        ∀ c, strategyText options = some c →
          resolveTypeContext t node options = c) ∧
      (strategyExplicit t node options = none → strategyText options = none →
        ∀ c, strategyFunctionBody t node options = some c →
          resolveTypeContext t node options = c) ∧
      (strategyExplicit t node options = none → strategyText options = none →
        strategyFunctionBody t node options = none →
        ∀ n, node = some n →
          resolveTypeContext t node options =
            inferTypeContext t n options.schemaLoader) ∧
      (∀ (n tf : NodeData) (tn : String) (ty : ResolvedType),
        node = some n → findTypeFilter t n = some tf →
        extractTypeName t tf = some tn →
        getType options.schemaLoader tn = some ty → ty.isDocument = true →
        resolveTypeContext t node options =
          { type := some ty, field := none, isArray := false,
            documentTypes := [tn] }) := by
  intro t node options
  refine ⟨?_, ?_, ?_, ?_, ?_⟩
  · intro c h
    unfold resolveTypeContext
    simp only [h]
  · intro h1 c h2
    unfold resolveTypeContext
    simp only [h1, h2]
  · intro h1 h2 c h3
    unfold resolveTypeContext
    simp only [h1, h2, h3]
  · intro h1 h2 h3 n hn
    subst hn
    unfold resolveTypeContext
    simp only [h1, h2, h3]
  · intro n tf tn ty hn h3 h4 h5 hdoc
    subst hn
    have hctx : inferTypeFromExplicitFilter t n options.schemaLoader =
        { type := some ty, field := none, isArray := false,
          documentTypes := [tn] } := by
      unfold inferTypeFromExplicitFilter
      simp only [h3, h4, h5, hdoc, if_true]
    have hse : strategyExplicit t (some n) options =
        some { type := some ty, field := none, isArray := false,
               documentTypes := [tn] } := by
      unfold strategyExplicit
      simp [hctx]
    unfold resolveTypeContext
    simp only [hse]

/-- The schema behind the C1 witness: two document types. -/
def schemaD : SanitySchema :=
  { types :=
      [{ name := "post", type := "document", description := none,
         fields := some [{ name := "title", type := "string",
                           description := none, of := none, toTargets := none }] },
       { name := "other", type := "document", description := none,
         fields := some [{ name := "label", type := "string",
                           description := none, of := none, toTargets := none }] }] }

/-- A loader with `schemaD` installed. -/
def loaderD : SchemaLoaderState :=
  loadFromObject (SchemaLoader.mk DEFAULT_VALIDATION_CONFIG) schemaD

/-- The comparison node of `*[_type == "post"]`. -/
def nodeD3 : NodeData :=
  { id := 3, type := "comparison_expression", text := String.mk
      (['_', 't', 'y', 'p', 'e', ' ', '=', '=', ' ', '"', 'p', 'o', 's', 't', '"']),
    startIndex := 2, startRow := 0, startCol := 2, endRow := 0, endCol := 17,
    parent := some 1, children := [4, 5, 6], namedChildren := [4, 6],
    fields := [("left", 4), ("operator", 5), ("right", 6)] }

/-- The `_type` identifier node of `*[_type == "post"]`. -/
def nodeD4 : NodeData :=
  { id := 4, type := "identifier", text := "_type", startIndex := 2,
    startRow := 0, startCol := 2, endRow := 0, endCol := 7,
    parent := some 3, children := [], namedChildren := [], fields := [] }

/-- Tree for the query `*[_type == "post"]`. -/
def treeD : Tree :=
  [{ id := 0, type := "source_file", text := String.mk
       (['*', '[', '_', 't', 'y', 'p', 'e', ' ', '=', '=', ' ', '"', 'p', 'o',
         's', 't', '"', ']']),
     startIndex := 0, startRow := 0, startCol := 0, endRow := 0, endCol := 18,
     parent := none, children := [1], namedChildren := [1], fields := [] },
   { id := 1, type := "subscript_expression", text := String.mk
       (['*', '[', '_', 't', 'y', 'p', 'e', ' ', '=', '=', ' ', '"', 'p', 'o',
         's', 't', '"', ']']),
     startIndex := 0, startRow := 0, startCol := 0, endRow := 0, endCol := 18,
     parent := some 0, children := [2, 3], namedChildren := [2, 3],
     fields := [("base", 2), ("index", 3)] },
   { id := 2, type := "everything", text := "*", startIndex := 0,
     startRow := 0, startCol := 0, endRow := 0, endCol := 1,
     parent := some 1, children := [], namedChildren := [], fields := [] },
   nodeD3, nodeD4,
   { id := 5, type := "comparison_operator", text := "==", startIndex := 8,
     startRow := 0, startCol := 8, endRow := 0, endCol := 10,
     parent := some 3, children := [], namedChildren := [], fields := [] },
   { id := 6, type := "string", text := String.mk
       (['"', 'p', 'o', 's', 't', '"']),
     startIndex := 11, startRow := 0, startCol := 11, endRow := 0, endCol := 17,
     parent := some 3, children := [], namedChildren := [], fields := [] }]

/-- Resolver options whose source text carries a competing
`_type == "other"` pattern right before the cursor. -/
def optsD : ResolverOptions :=
  { schemaLoader := loaderD, functionRegistry := none,
    source := some (String.mk
      (['*', '[', '_', 't', 'y', 'p', 'e', ' ', '=', '=', ' ', '"', 'o', 't',
        'h', 'e', 'r', '"', ']', ' '] ++ [lbrace])),
    position := some (0, 21) }

/-- The resolved `post` document type. -/
def tyD : ResolvedType := resolveType (schemaD.types.get ⟨0, by decide⟩)

theorem resolver_priority_chain_witness :
    resolveTypeContext treeD (some nodeD4) optsD =
      { type := some tyD, field := none, isArray := false,
        documentTypes := ["post"] } ∧
    (strategyText optsD).map (·.documentTypes) = some ["other"] := by
  refine ⟨?_, by decide⟩
  exact (resolver_priority_chain treeD (some nodeD4) optsD).2.2.2.2
    nodeD4 nodeD3 "post" tyD rfl (by decide) (by decide) (by decide) (by decide)

/-! ## C2 — call-site argument types propagate into parameter types -/

theorem setAdd_mem_self (s : List String) (x : String) : x ∈ setAdd s x := by
  unfold setAdd
  by_cases h : x ∈ s <;> simp [h]

theorem setAdd_mem_of_mem (s : List String) (x y : String) (h : y ∈ s) :
    y ∈ setAdd s x := by
  unfold setAdd
  split
  · exact h
  · exact List.mem_append_left _ h

theorem foldl_setAdd_mem_init (ts acc : List String) (y : String)
    (h : y ∈ acc) : y ∈ ts.foldl setAdd acc := by
  induction ts generalizing acc with
  | nil => exact h
  | cons t ts ih => exact ih _ (setAdd_mem_of_mem _ _ _ h)

theorem foldl_setAdd_mem (ts acc : List String) (y : String)
    (h : y ∈ ts) : y ∈ ts.foldl setAdd acc := by
  induction ts generalizing acc with
  | nil => cases h
  | cons t ts ih =>
    cases h with
    | head => exact foldl_setAdd_mem_init ts (setAdd acc y) y (setAdd_mem_self acc y)
    | tail _ h => exact ih _ h

theorem unionAt_get (ps : List FunctionParameter) (i : Nat) (ts : List String)
    (k : Nat) :
    (unionAt ps i ts).get? k =
      if k = i then
        (ps.get? k).map (fun p =>
          { p with inferredTypes := ts.foldl setAdd p.inferredTypes })
      else ps.get? k := by
  induction ps generalizing i k with
  | nil => simp [unionAt]
  | cons p ps ih =>
    cases i with
    | zero =>
      cases k with
      | zero => simp [unionAt]
      | succ k => simp [unionAt]
    | succ i =>
      cases k with
      | zero => simp [unionAt]
      | succ k =>
        simp only [unionAt, List.get?_cons_succ, ih i k]
        by_cases h : k = i
        · simp [h]
        · have h' : ¬(k + 1 = i + 1) := fun hs => h (Nat.succ_injective hs)
          simp [h, h']

theorem unionAt_length (ps : List FunctionParameter) (i : Nat) (ts : List String) :
    (unionAt ps i ts).length = ps.length := by
  induction ps generalizing i with
  | nil => simp [unionAt]
  | cons p ps ih =>
    cases i with
    | zero => simp [unionAt]
    | succ i => simp [unionAt, ih i]

theorem applyArgsFrom_length (args : List (Option (List String)))
    (ps : List FunctionParameter) (i : Nat) :
    (applyArgsFrom ps i args).length = ps.length := by
  induction args generalizing ps i with
  | nil => simp [applyArgsFrom]
  | cons a rest ih =>
    cases a with
    | none => simp [applyArgsFrom, ih]
    | some ts =>
      show (applyArgsFrom (if i < ps.length then unionAt ps i ts else ps)
        (i + 1) rest).length = ps.length
      rw [ih]
      split
      · exact unionAt_length ps i ts
      · rfl

theorem applyArgsFrom_mono (args : List (Option (List String)))
    (ps : List FunctionParameter) (i k : Nat) (p : FunctionParameter)
    (h : ps.get? k = some p) :
    ∃ p', (applyArgsFrom ps i args).get? k = some p' ∧
      ∀ y ∈ p.inferredTypes, y ∈ p'.inferredTypes := by
  induction args generalizing ps i p with
  | nil => exact ⟨p, h, fun y hy => hy⟩
  | cons a rest ih =>
    cases a with
    | none => exact ih ps (i + 1) p h
    | some ts =>
      show ∃ p', (applyArgsFrom (if i < ps.length then unionAt ps i ts else ps)
        (i + 1) rest).get? k = some p' ∧
        ∀ y ∈ p.inferredTypes, y ∈ p'.inferredTypes
      split
      · by_cases hk : k = i
        · subst hk
          obtain ⟨p', hp', hsub⟩ := ih (unionAt ps k ts) (k + 1)
            { p with inferredTypes := ts.foldl setAdd p.inferredTypes }
            (by rw [unionAt_get, if_pos rfl, h]; rfl)
          exact ⟨p', hp', fun y hy => hsub y (foldl_setAdd_mem_init _ _ _ hy)⟩
        · exact ih (unionAt ps i ts) (i + 1) p
            (by rw [unionAt_get, if_neg hk]; exact h)
      · exact ih ps (i + 1) p h

theorem applyArgsFrom_establish (args : List (Option (List String)))
    (ps : List FunctionParameter) (i k : Nat) (ts : List String) (y : String)
    (p : FunctionParameter) (hargs : args.get? k = some (some ts))
    (hp : ps.get? (i + k) = some p) (hy : y ∈ ts) :
    ∃ p', (applyArgsFrom ps i args).get? (i + k) = some p' ∧
      y ∈ p'.inferredTypes := by
  induction args generalizing ps i k p with
  | nil => simp at hargs
  | cons a rest ih =>
    cases k with
    | zero =>
      simp only [List.get?_cons_zero, Option.some.injEq] at hargs
      subst hargs
      have hlt : i < ps.length := by
        obtain ⟨hl, -⟩ := List.get?_eq_some.mp hp
        omega
      show ∃ p', (applyArgsFrom (if i < ps.length then unionAt ps i ts else ps)
        (i + 1) rest).get? (i + 0) = some p' ∧ y ∈ p'.inferredTypes
      rw [if_pos hlt]
      have hp0 : ps.get? i = some p := by rw [← Nat.add_zero i]; exact hp
      have hbase : (unionAt ps i ts).get? i =
          some { p with inferredTypes := ts.foldl setAdd p.inferredTypes } := by
        rw [unionAt_get, if_pos rfl, hp0]
        rfl
      obtain ⟨p', hp', hsub⟩ := applyArgsFrom_mono rest (unionAt ps i ts) (i + 1) i
        { p with inferredTypes := ts.foldl setAdd p.inferredTypes } hbase
      rw [Nat.add_zero]
      exact ⟨p', hp', hsub y (foldl_setAdd_mem _ _ _ hy)⟩
    | succ k =>
      simp only [List.get?_cons_succ] at hargs
      cases a with
      | none =>
        have hp' : ps.get? (i + 1 + k) = some p := by
          rw [show i + 1 + k = i + (k + 1) from by omega]
          exact hp
        obtain ⟨p', h1, h2⟩ := ih ps (i + 1) k p hargs hp'
        refine ⟨p', ?_, h2⟩
        show (applyArgsFrom ps (i + 1) rest).get? (i + (k + 1)) = some p'
        rw [show i + (k + 1) = i + 1 + k from by omega]
        exact h1
      | some ts0 =>
        show ∃ p', (applyArgsFrom (if i < ps.length then unionAt ps i ts0 else ps)
          (i + 1) rest).get? (i + (k + 1)) = some p' ∧ y ∈ p'.inferredTypes
        have hne : ¬(i + (k + 1) = i) := by omega
        have hp1 : (if i < ps.length then unionAt ps i ts0 else ps).get?
            (i + (k + 1)) = some p := by
          split
          · rw [unionAt_get, if_neg hne]; exact hp
          · exact hp
        have hp2 : (if i < ps.length then unionAt ps i ts0 else ps).get?
            (i + 1 + k) = some p := by
          rw [show i + 1 + k = i + (k + 1) from by omega]
          exact hp1
        obtain ⟨p', h1, h2⟩ := ih _ (i + 1) k p hargs hp2
        refine ⟨p', ?_, h2⟩
        rw [show i + (k + 1) = i + 1 + k from by omega]
        exact h1

theorem applyCallSite_length (defn : FunctionDefinition) (cs : CallSiteInfo) :
    (applyCallSite defn cs).parameters.length = defn.parameters.length :=
  applyArgsFrom_length cs.argumentTypes defn.parameters 0

theorem applyCallSite_mono (defn : FunctionDefinition) (cs : CallSiteInfo)
    (k : Nat) (p : FunctionParameter) (hp : defn.parameters.get? k = some p) :
    ∃ p', (applyCallSite defn cs).parameters.get? k = some p' ∧
      ∀ y ∈ p.inferredTypes, y ∈ p'.inferredTypes :=
  applyArgsFrom_mono cs.argumentTypes defn.parameters 0 k p hp

theorem applyCallSite_establish (defn : FunctionDefinition) (cs : CallSiteInfo)
    (k : Nat) (ts : List String) (y : String)
    (hargs : cs.argumentTypes.get? k = some (some ts)) (hy : y ∈ ts)
    (hk : k < defn.parameters.length) :
    ∃ p', (applyCallSite defn cs).parameters.get? k = some p' ∧
      y ∈ p'.inferredTypes := by
  obtain ⟨p, hp⟩ : ∃ p, defn.parameters.get? k = some p := by
    cases hg : defn.parameters.get? k with
    | none =>
      rw [List.get?_eq_none] at hg
      omega
    | some p => exact ⟨p, rfl⟩
  have h := applyArgsFrom_establish cs.argumentTypes defn.parameters 0 k ts y p
    hargs (by simpa using hp) hy
  simpa using h

theorem foldl_applyCallSite_length (css : List CallSiteInfo)
    (defn : FunctionDefinition) :
    (css.foldl applyCallSite defn).parameters.length = defn.parameters.length := by
  induction css generalizing defn with
  | nil => rfl
  | cons c rest ih => rw [List.foldl_cons, ih, applyCallSite_length]

theorem foldl_applyCallSite_mono (css : List CallSiteInfo)
    (defn : FunctionDefinition) (k : Nat) (p : FunctionParameter)
    (hp : defn.parameters.get? k = some p) :
    ∃ p', (css.foldl applyCallSite defn).parameters.get? k = some p' ∧
      ∀ y ∈ p.inferredTypes, y ∈ p'.inferredTypes := by
  induction css generalizing defn p with
  | nil => exact ⟨p, hp, fun y hy => hy⟩
  | cons c rest ih =>
    obtain ⟨p1, hp1, hs1⟩ := applyCallSite_mono defn c k p hp
    obtain ⟨p', hp', hs2⟩ := ih (applyCallSite defn c) p1 hp1
    exact ⟨p', hp', fun y hy => hs2 y (hs1 y hy)⟩

theorem foldl_applyCallSite_establish (css : List CallSiteInfo)
    (defn : FunctionDefinition) (cs : CallSiteInfo) (k : Nat) (ts : List String)
    (y : String) (hargs : cs.argumentTypes.get? k = some (some ts))
    (hy : y ∈ ts) :
    cs ∈ css → k < defn.parameters.length →
    ∃ p', (css.foldl applyCallSite defn).parameters.get? k = some p' ∧
      y ∈ p'.inferredTypes := by
  induction css generalizing defn with
  | nil =>
    intro hmem _
    cases hmem
  | cons c rest ih =>
    intro hmem hk
    cases hmem with
    | head =>
      obtain ⟨p1, hp1, hy1⟩ := applyCallSite_establish defn cs k ts y hargs hy hk
      obtain ⟨p', hp', hs⟩ := foldl_applyCallSite_mono rest (applyCallSite defn cs)
        k p1 hp1
      exact ⟨p', hp', hs y hy1⟩
    | tail _ hmem' =>
      exact ih (applyCallSite defn c) hmem'
        (by rw [applyCallSite_length]; exact hk)

/-- Folding the remaining call-site groups never loses an inferred
parameter type that is already present. -/
theorem propagateTypes_preserves (callSites : List (String × List CallSiteInfo))
    (defs : List (String × FunctionDefinition)) (funcName : String) (k : Nat)
    (y : String)
    (h : ∃ defn p', mapGet defs funcName = some defn ∧
      defn.parameters.get? k = some p' ∧ y ∈ p'.inferredTypes) :
    ∃ defn p', mapGet (propagateTypes defs callSites) funcName = some defn ∧
      defn.parameters.get? k = some p' ∧ y ∈ p'.inferredTypes := by
  induction callSites generalizing defs with
  | nil => exact h
  | cons e rest ih =>
    obtain ⟨fn, csl⟩ := e
    have hstep : ∃ defn p',
        mapGet (match mapGet defs fn with
                | none => defs
                | some d => mapSet defs fn (csl.foldl applyCallSite d))
          funcName = some defn ∧
        defn.parameters.get? k = some p' ∧ y ∈ p'.inferredTypes := by
      cases hg : mapGet defs fn with
      | none =>
        simp only [hg]
        exact h
      | some d =>
        simp only [hg]
        obtain ⟨defn, p', hget, hp, hy⟩ := h
        by_cases he : funcName = fn
        · subst he
          rw [hg] at hget
          injection hget with hde
          subst hde
          obtain ⟨p'', hp'', hs⟩ := foldl_applyCallSite_mono csl d k p' hp
          exact ⟨_, p'', mapGet_mapSet_self _ _ _, hp'', hs y hy⟩
        · exact ⟨defn, p',
            by rw [mapGet_mapSet_ne _ _ _ _ he]; exact hget, hp, hy⟩
    exact ih _ hstep

/-- Every argument type at every recorded call site ends up in the
inferred-type set of the parameter at the same position. -/
theorem propagateTypes_mem (callSites : List (String × List CallSiteInfo))
    (defs : List (String × FunctionDefinition)) (funcName : String)
    (css : List CallSiteInfo) (cs : CallSiteInfo) (k : Nat) (ts : List String)
    (y : String) (defn : FunctionDefinition) :
    mapGet callSites funcName = some css → cs ∈ css →
    cs.argumentTypes.get? k = some (some ts) → y ∈ ts →
    mapGet defs funcName = some defn → k < defn.parameters.length →
    ∃ defn' p', mapGet (propagateTypes defs callSites) funcName = some defn' ∧
      defn'.parameters.get? k = some p' ∧ y ∈ p'.inferredTypes := by
  induction callSites generalizing defs with
  | nil =>
    intro hcs
    simp [mapGet] at hcs
  | cons e rest ih =>
    obtain ⟨fn, csl⟩ := e
    intro hcs hmem hargs hy hdef hk
    rw [mapGet_cons] at hcs
    by_cases he : fn = funcName
    · rw [if_pos he] at hcs
      injection hcs with hcss
      subst hcss
      subst he
      have hstepped : propagateTypes defs ((fn, csl) :: rest) =
          propagateTypes (mapSet defs fn (csl.foldl applyCallSite defn)) rest := by
        unfold propagateTypes
        rw [List.foldl_cons]
        simp only [hdef]
      rw [hstepped]
      apply propagateTypes_preserves rest
      obtain ⟨p', hp', hy'⟩ :=
        foldl_applyCallSite_establish csl defn cs k ts y hargs hy hmem hk
      exact ⟨csl.foldl applyCallSite defn, p', mapGet_mapSet_self _ _ _, hp', hy'⟩
    · rw [if_neg he] at hcs
      have hdef' : mapGet (match mapGet defs fn with
          | none => defs
          | some d => mapSet defs fn (csl.foldl applyCallSite d))
          funcName = some defn := by
        cases hg : mapGet defs fn with
        | none =>
          simp only [hg]
          exact hdef
        | some d =>
          simp only [hg]
          rw [mapGet_mapSet_ne _ _ _ _ (fun hh => he hh.symm)]
          exact hdef
      exact ih _ hcs hmem hargs hy hdef' hk

/-- The schema behind the C2 scenario: `post` holds a reference field
`author` targeting the document type `author`. -/
def schemaC2 : SanitySchema :=
  { types :=
      [{ name := "post", type := "document", description := none,
         fields := some
           [{ name := "author", type := "reference", description := none,
              of := none, toTargets := some [{ type := "author" }] },
            { name := "title", type := "string", description := none,
              of := none, toTargets := none }] },
       { name := "author", type := "document", description := none,
         fields := some
           [{ name := "name", type := "string", description := none,
              of := none, toTargets := none }] }] }

/-- A loader with `schemaC2` installed. -/
def loaderC2 : SchemaLoaderState :=
  loadFromObject (SchemaLoader.mk DEFAULT_VALIDATION_CONFIG) schemaC2

/-- The source text `fn f($x) = $x-> {name}` + newline + `f(author)`
(braces assembled by code point). -/
def srcC2 : String :=
  String.mk ("fn f($x) = $x-> ".toList ++ [lbrace] ++ "name".toList ++
    [rbrace] ++ "\nf(author)".toList)

/-- Root of the C2 tree. -/
def rootC : NodeData :=
  { id := 0, type := "source_file", text := srcC2, startIndex := 0,
    startRow := 0, startCol := 0, endRow := 1, endCol := 9,
    parent := none, children := [1, 13], namedChildren := [1, 13], fields := [] }

/-- Tree for `fn f($x) = $x-> {name}` followed by the call `f(author)`. -/
def treeC : Tree :=
  [rootC,
   { id := 1, type := "function_definition",
     text := String.mk ("fn f($x) = $x-> ".toList ++ [lbrace] ++
       "name".toList ++ [rbrace]),
     startIndex := 0, startRow := 0, startCol := 0, endRow := 0, endCol := 22,
     parent := some 0, children := [2, 3, 4], namedChildren := [2, 3, 4],
     fields := [("name", 2), ("body", 4)] },
   { id := 2, type := "identifier", text := "f", startIndex := 3,
     startRow := 0, startCol := 3, endRow := 0, endCol := 4,
     parent := some 1, children := [], namedChildren := [], fields := [] },
   { id := 3, type := "parameter_list", text := "($x)", startIndex := 4,
     startRow := 0, startCol := 4, endRow := 0, endCol := 8,
     parent := some 1, children := [5], namedChildren := [5], fields := [] },
   { id := 5, type := "variable", text := "$x", startIndex := 5,
     startRow := 0, startCol := 5, endRow := 0, endCol := 7,
     parent := some 3, children := [], namedChildren := [], fields := [] },
   { id := 4, type := "projection_expression",
     text := String.mk ("$x-> ".toList ++ [lbrace] ++ "name".toList ++ [rbrace]),
     startIndex := 11, startRow := 0, startCol := 11, endRow := 0, endCol := 22,
     parent := some 1, children := [6, 9], namedChildren := [6, 9],
     fields := [("base", 6)] },
   { id := 6, type := "dereference_expression", text := "$x->", startIndex := 11,
     startRow := 0, startCol := 11, endRow := 0, endCol := 15,
     parent := some 4, children := [7], namedChildren := [7],
     fields := [("base", 7)] },
   { id := 7, type := "variable", text := "$x", startIndex := 11,
     startRow := 0, startCol := 11, endRow := 0, endCol := 13,
     parent := some 6, children := [], namedChildren := [], fields := [] },
   { id := 9, type := "projection",
     text := String.mk ([lbrace] ++ "name".toList ++ [rbrace]),
     startIndex := 16, startRow := 0, startCol := 16, endRow := 0, endCol := 22,
     parent := some 4, children := [10], namedChildren := [10], fields := [] },
   { id := 10, type := "identifier", text := "name", startIndex := 17,
     startRow := 0, startCol := 17, endRow := 0, endCol := 21,
     parent := some 9, children := [], namedChildren := [], fields := [] },
   { id := 13, type := "function_call", text := "f(author)", startIndex := 23,
     startRow := 1, startCol := 0, endRow := 1, endCol := 9,
     parent := some 0, children := [14, 15], namedChildren := [14, 15],
     fields := [("name", 14)] },
   { id := 14, type := "identifier", text := "f", startIndex := 23,
     startRow := 1, startCol := 0, endRow := 1, endCol := 1,
     parent := some 13, children := [], namedChildren := [], fields := [] },
   { id := 15, type := "identifier", text := "author", startIndex := 25,
     startRow := 1, startCol := 2, endRow := 1, endCol := 8,
     parent := some 13, children := [], namedChildren := [], fields := [] }]

/-- The registry extracted from the C2 tree with `schemaC2` loaded. -/
def regC2 : FunctionRegistryState :=
  extractFromAST treeC rootC (some loaderC2) srcC2

/-- C2: on the concrete `fn f($x) = $x-> {name}` / `f(author)` scenario the
inferred type of parameter 0 of `f` is exactly `["author"]` (so it contains
"author"); in general every recorded call-site argument type is unioned
into the inferred-type set of the parameter at the same position by
`propagateTypes`, and `extractFromAST` feeds its extracted definitions and
call sites through exactly that propagation step. -/
theorem function_parameter_type_propagation :
    (getInferredParameterType regC2 "f" 0 = ["author"] ∧
      "author" ∈ getInferredParameterType regC2 "f" 0) ∧
    (∀ (defs : List (String × FunctionDefinition))
       (callSites : List (String × List CallSiteInfo))
       (funcName : String) (css : List CallSiteInfo) (cs : CallSiteInfo)
       (k : Nat) (ts : List String) (y : String) (defn : FunctionDefinition),
      mapGet callSites funcName = some css → cs ∈ css →
      cs.argumentTypes.get? k = some (some ts) → y ∈ ts →
      mapGet defs funcName = some defn → k < defn.parameters.length →
      ∃ defn' p',
        mapGet (propagateTypes defs callSites) funcName = some defn' ∧
        defn'.parameters.get? k = some p' ∧ y ∈ p'.inferredTypes) ∧
    (∀ (t : Tree) (root : NodeData) (loaderOpt : Option SchemaLoaderState)
       (rawSource : String),
      (extractFromAST t root loaderOpt rawSource).definitions =
        propagateTypes (extractFunctionDefinitions t root rawSource)
          (extractCallSites t root (extractFunctionDefinitions t root rawSource)
            loaderOpt)) := by
  refine ⟨by decide, ?_, fun _ _ _ _ => rfl⟩
  intro defs callSites funcName css cs k ts y defn hcs hmem hargs hy hdef hk
  exact propagateTypes_mem callSites defs funcName css cs k ts y defn
    hcs hmem hargs hy hdef hk

/-- A one-definition, one-call-site instance for the general conjunct. -/
def defnW : FunctionDefinition :=
  { name := "f", nameNode := 2,
    parameters := [{ name := "$x", inferredTypes := [], declaredType := none,
                     typeAnnotationRange := none }],
    bodyNode := 4 }

/-- The call-site record of the witness instance. -/
def csW : CallSiteInfo :=
  { functionName := "f", argumentTypes := [some ["author"]], callNode := 13 }

theorem function_parameter_type_propagation_witness :
    ∃ defn' p',
      mapGet (propagateTypes [("f", defnW)] [("f", [csW])]) "f" = some defn' ∧
      defn'.parameters.get? 0 = some p' ∧ "author" ∈ p'.inferredTypes :=
  function_parameter_type_propagation.2.1 [("f", defnW)] [("f", [csW])]
    "f" [csW] csW 0 ["author"] "author" defnW
    (by decide) (by decide) (by decide) (by decide) (by decide) (by decide)

end GroqLS
